import Mathlib

/-!
Verification of the manifest-generation engine of the robo.js repository.

The development shallowly embeds the code of `src/unnamed/part_001` (the
current `cli/utils/manifest.ts`) and, where claims cite it, the older
variant `src/unnamed/part_002`, together with the build action of
`src/unnamed/part_001` (lines 30-86).

JavaScript objects are modelled as ordered association lists
(`List (String × V)`) with unique keys, which captures both the key set and
the insertion order that `JSON.stringify` later serializes.  Object spread
`{...a, ...b}` is modelled by `objSpread`, which updates existing keys in
place and appends new keys, exactly as JS property assignment does.
-/

namespace Robo

/-- A JavaScript object with values of type `V`: an ordered association list. -/
abbrev Obj (V : Type) := List (String × V)

/-- Property access `o[k]`: the first binding of key `k`, if any. -/
def olookup {V : Type} : Obj V → String → Option V
  | [], _ => none
  | (k, v) :: t, k' => if k = k' then some v else olookup t k'

/-- Membership `k in o`: does the object have the key? -/
def hasKey {V : Type} (o : Obj V) (k : String) : Bool :=
  (olookup o k).isSome

/-- The ordered key list of an object. -/
def keys {V : Type} (o : Obj V) : List String := o.map Prod.fst

/-- Property assignment `o[k] = v`: replaces the value in place when the key
exists, otherwise appends the new binding (JS insertion-order semantics). -/
def objInsert {V : Type} (o : Obj V) (k : String) (v : V) : Obj V :=
  if hasKey o k then o.map (fun p => if p.1 = k then (k, v) else p) else o ++ [(k, v)]

/-- Object spread `{...a, ...b}`: assign each binding of `b` over a copy of `a`. -/
def objSpread {V : Type} (a b : Obj V) : Obj V :=
  b.foldl (fun acc p => objInsert acc p.1 p.2) a

theorem olookup_eq_none_of_not_mem {V : Type} {o : Obj V} {k : String}
    (h : k ∉ keys o) : olookup o k = none := by
  induction o with
  | nil => rfl
  | cons p t ih =>
    simp only [keys, List.map_cons, List.mem_cons, not_or] at h
    have hp : ¬p.1 = k := fun he => h.1 he.symm
    simp only [olookup, if_neg hp]
    exact ih h.2

theorem olookup_isSome_of_mem_keys {V : Type} {o : Obj V} {k : String}
    (h : k ∈ keys o) : (olookup o k).isSome := by
  induction o with
  | nil => simp [keys] at h
  | cons p t ih =>
    simp only [keys, List.map_cons, List.mem_cons] at h
    by_cases hp : p.1 = k
    · simp [olookup, hp]
    · simp only [olookup, if_neg hp]
      exact ih (h.resolve_left (fun he => hp he.symm))

theorem olookup_append {V : Type} (a b : Obj V) (k : String) :
    olookup (a ++ b) k = match olookup a k with
      | some v => some v
      | none => olookup b k := by
  induction a with
  | nil => rfl
  | cons p t ih =>
    simp only [List.cons_append, olookup]
    by_cases hp : p.1 = k
    · simp [hp]
    · simp only [if_neg hp]
      exact ih

theorem hasKey_false_iff {V : Type} (o : Obj V) (k : String) :
    hasKey o k = false ↔ olookup o k = none := by
  simp [hasKey, Option.isSome_iff_exists]

theorem olookup_map_update_self {V : Type} (o : Obj V) (k : String) (v : V)
    (h : hasKey o k = true) :
    olookup (o.map (fun p => if p.1 = k then (k, v) else p)) k = some v := by
  induction o with
  | nil => simp [hasKey, olookup] at h
  | cons p t ih =>
    simp only [List.map_cons]
    by_cases hp : p.1 = k
    · rw [if_pos hp]
      simp [olookup]
    · rw [if_neg hp]
      have ht : hasKey t k = true := by
        simpa [hasKey, olookup, hp] using h
      simp only [olookup, if_neg hp]
      exact ih ht

theorem olookup_map_update_other {V : Type} (o : Obj V) (k k' : String) (v : V)
    (hne : k' ≠ k) :
    olookup (o.map (fun p => if p.1 = k then (k, v) else p)) k' = olookup o k' := by
  induction o with
  | nil => rfl
  | cons p t ih =>
    simp only [List.map_cons]
    by_cases hp : p.1 = k
    · rw [if_pos hp]
      have h1 : ¬k = k' := fun he => hne he.symm
      have h2 : ¬p.1 = k' := fun he => hne (hp.symm.trans he).symm
      simp only [olookup, if_neg h1, if_neg h2]
      exact ih
    · rw [if_neg hp]
      by_cases hk' : p.1 = k'
      · simp [olookup, hk']
      · simp only [olookup, if_neg hk']
        exact ih

/-- After `o[k] = v`, reading `k` gives `v`. -/
theorem olookup_objInsert_self {V : Type} (o : Obj V) (k : String) (v : V) :
    olookup (objInsert o k v) k = some v := by
  by_cases h : hasKey o k = true
  · rw [objInsert, if_pos h]
    exact olookup_map_update_self o k v h
  · have hfalse : hasKey o k = false := by simpa using h
    have hnone : olookup o k = none := (hasKey_false_iff o k).mp hfalse
    rw [objInsert, if_neg (by simp [hfalse]), olookup_append, hnone]
    simp [olookup]

/-- After `o[k] = v`, every other key reads as before. -/
theorem olookup_objInsert_other {V : Type} (o : Obj V) (k k' : String) (v : V)
    (hne : k' ≠ k) : olookup (objInsert o k v) k' = olookup o k' := by
  by_cases h : hasKey o k = true
  · rw [objInsert, if_pos h]
    exact olookup_map_update_other o k k' v hne
  · have hfalse : hasKey o k = false := by simpa using h
    rw [objInsert, if_neg (by simp [hfalse]), olookup_append]
    cases ho : olookup o k' with
    | some v' => rfl
    | none =>
      have hne' : ¬k = k' := fun he => hne he.symm
      simp [olookup, hne']

theorem keys_map_update {V : Type} (o : Obj V) (k : String) (v : V) :
    keys (o.map (fun p => if p.1 = k then (k, v) else p)) = keys o := by
  induction o with
  | nil => rfl
  | cons p t ih =>
    simp only [List.map_cons, keys] at *
    by_cases hp : p.1 = k
    · rw [if_pos hp]
      simp [hp, ih]
    · rw [if_neg hp]
      simp [ih]

theorem keys_objInsert {V : Type} (o : Obj V) (k : String) (v : V) :
    keys (objInsert o k v) = if hasKey o k then keys o else keys o ++ [k] := by
  by_cases h : hasKey o k = true
  · rw [objInsert, if_pos h, if_pos h]
    exact keys_map_update o k v
  · have hfalse : hasKey o k = false := by simpa using h
    rw [objInsert, if_neg (by simp [hfalse]), if_neg (by simp [hfalse])]
    simp [keys]

theorem nodup_keys_objInsert {V : Type} {o : Obj V} (k : String) (v : V)
    (h : (keys o).Nodup) : (keys (objInsert o k v)).Nodup := by
  rw [keys_objInsert]
  by_cases hk : hasKey o k = true
  · simpa [hk]
  · have hfalse : hasKey o k = false := by simpa using hk
    have hnone := (hasKey_false_iff o k).mp hfalse
    rw [if_neg (by simp [hfalse])]
    rw [List.nodup_append]
    refine ⟨h, List.nodup_singleton k, ?_⟩
    intro a ha hb
    simp only [List.mem_singleton] at hb
    subst hb
    have := olookup_isSome_of_mem_keys ha
    rw [hnone] at this
    exact Bool.noConfusion this

theorem nodup_keys_objSpread {V : Type} {a : Obj V} (b : Obj V)
    (ha : (keys a).Nodup) : (keys (objSpread a b)).Nodup := by
  induction b generalizing a with
  | nil => exact ha
  | cons p t ih => exact ih (nodup_keys_objInsert p.1 p.2 ha)

/-- Spread semantics at the level of property reads: `{...a, ...b}[k]` is
`b[k]` when `b` has the key, otherwise `a[k]` (keys of `b` assumed unique,
as they are for any JS object). -/
theorem olookup_objSpread {V : Type} (a b : Obj V) (k : String)
    (hb : (keys b).Nodup) :
    olookup (objSpread a b) k = match olookup b k with
      | some v => some v
      | none => olookup a k := by
  induction b generalizing a with
  | nil => rfl
  | cons p t ih =>
    obtain ⟨k0, v0⟩ := p
    simp only [keys, List.map_cons, List.nodup_cons] at hb
    obtain ⟨hk0, ht⟩ := hb
    have step : objSpread a ((k0, v0) :: t) = objSpread (objInsert a k0 v0) t := rfl
    rw [step, ih (objInsert a k0 v0) ht]
    by_cases hk : k0 = k
    · subst hk
      have hnone : olookup t k0 = none := olookup_eq_none_of_not_mem (by
        intro hm
        exact hk0 (by simpa [keys] using hm))
      simp [olookup, hnone, olookup_objInsert_self]
    · simp only [olookup, if_neg hk]
      cases holt : olookup t k with
      | some v => rfl
      | none => simp [olookup_objInsert_other a k0 k v0 (fun he => hk he.symm)]

/-- One step of insertion sort on key-value pairs, ordered by key. -/
def insSorted {V : Type} (p : String × V) : Obj V → Obj V
  | [] => [p]
  | q :: t => if p.1 ≤ q.1 then p :: q :: t else q :: insSorted p t

/-- Model of `Object.fromEntries(Object.entries(o).sort(([a], [b]) => a.localeCompare(b)))`
(part_001 lines 223-225): re-build the object with its keys in sorted order.
`localeCompare` is modelled by the standard string order; the claims proved
below depend only on it being a fixed total order. -/
def sortByKey {V : Type} : Obj V → Obj V
  | [] => []
  | p :: t => insSorted p (sortByKey t)

theorem insSorted_perm {V : Type} (p : String × V) (l : Obj V) :
    (insSorted p l).Perm (p :: l) := by
  induction l with
  | nil => exact List.Perm.refl _
  | cons q t ih =>
    by_cases h : p.1 ≤ q.1
    · simp [insSorted, h]
    · simp only [insSorted, if_neg h]
      exact (List.Perm.cons q ih).trans (List.Perm.swap p q t)

theorem sortByKey_perm {V : Type} (l : Obj V) : (sortByKey l).Perm l := by
  induction l with
  | nil => exact List.Perm.refl _
  | cons p t ih => exact (insSorted_perm p (sortByKey t)).trans (List.Perm.cons p ih)

/-- Property reads are invariant under permutation when keys are unique. -/
theorem olookup_perm {V : Type} {l1 l2 : Obj V} (h : l1.Perm l2) :
    (keys l1).Nodup → ∀ k, olookup l1 k = olookup l2 k := by
  induction h with
  | nil => exact fun _ _ => rfl
  | @cons x t1 t2 hperm ih =>
    intro hn k
    obtain ⟨kx, vx⟩ := x
    simp only [keys, List.map_cons, List.nodup_cons] at hn
    simp only [olookup]
    by_cases hx : kx = k
    · simp [hx]
    · simp only [if_neg hx]
      exact ih hn.2 k
  | @swap x y l =>
    intro hn k
    obtain ⟨kx, vx⟩ := x
    obtain ⟨ky, vy⟩ := y
    simp only [keys, List.map_cons, List.nodup_cons, List.mem_cons] at hn
    have hxy : ¬ky = kx := fun he => hn.1 (Or.inl he)
    simp only [olookup]
    by_cases h1 : ky = k
    · subst h1
      simp [if_neg (fun he : kx = ky => hxy he.symm)]
    · simp [if_neg h1]
  | trans h1 h2 ih1 ih2 =>
    intro hn k
    have hn2 := ((h1.map Prod.fst).nodup_iff).mp hn
    exact (ih1 hn k).trans (ih2 hn2 k)

theorem olookup_sortByKey {V : Type} (l : Obj V) (hn : (keys l).Nodup) (k : String) :
    olookup (sortByKey l) k = olookup l k := by
  have hperm := sortByKey_perm l
  have hn' := ((hperm.map Prod.fst).nodup_iff).mpr hn
  exact olookup_perm hperm hn' k

/-- The function `mergeEvents` (part_001 lines 158-169, identically part_002 lines 65-76):
copy the base map, then for each event name in the new map bind the name to
the base array (or `[]` when absent) followed by the new array. -/
def mergeEvents {E : Type} (baseEvents newEvents : Obj (List E)) : Obj (List E) :=
  newEvents.foldl
    (fun merged p => objInsert merged p.1 (((olookup merged p.1).getD []) ++ p.2))
    baseEvents

/-- Per-name reading of `mergeEvents`: every name bound in the new map maps to
base-array-then-new-array concatenation; other names keep their base binding. -/
theorem olookup_mergeEvents {E : Type} (base new : Obj (List E)) (name : String)
    (hn : (keys new).Nodup) :
    olookup (mergeEvents base new) name = match olookup new name with
      | some arr => some (((olookup base name).getD []) ++ arr)
      | none => olookup base name := by
  induction new generalizing base with
  | nil => rfl
  | cons p t ih =>
    obtain ⟨k0, a0⟩ := p
    simp only [keys, List.map_cons, List.nodup_cons] at hn
    obtain ⟨hk0, ht⟩ := hn
    have step : mergeEvents base ((k0, a0) :: t)
        = mergeEvents (objInsert base k0 (((olookup base k0).getD []) ++ a0)) t := rfl
    rw [step, ih _ ht]
    by_cases hk : k0 = name
    · subst hk
      have hnone : olookup t k0 = none := olookup_eq_none_of_not_mem (by
        intro hm
        exact hk0 (by simpa [keys] using hm))
      simp [olookup, hnone, olookup_objInsert_self]
    · simp only [olookup, if_neg hk]
      cases holt : olookup t name with
      | some arr => simp [olookup_objInsert_other base k0 name _ (fun he => hk he.symm)]
      | none => simp [olookup_objInsert_other base k0 name _ (fun he => hk he.symm)]

/-- JS truthiness of an optional string property (`if (x.__path)`):
present and non-empty. -/
def truthyStr : Option String → Bool
  | none => false
  | some s => s ≠ ""

/-- A command manifest node: `data` stands for the scanned config payload
(description, options, ...), `cpath` for `__path`, and `subcommands` for the
optional nested subcommand object.  A scanned file entry always has a `__path`
and no `subcommands`; placeholder parents are `{ subcommands: {} }`. -/
inductive CommandEntry where
  | mk (data : Option String) (cpath : Option String)
       (subcommands : Option (List (String × CommandEntry)))

def CommandEntry.data : CommandEntry → Option String
  | .mk d _ _ => d

def CommandEntry.cpath : CommandEntry → Option String
  | .mk _ p _ => p

def CommandEntry.subcommands : CommandEntry → Option (Obj CommandEntry)
  | .mk _ _ s => s

/-- Ways the command branch of `generateEntries` can abort the process:
the two `logger.error` + `process.exit(1)` paths of part_001 lines 571-620
(identically part_002 lines 383-432), and a JS `TypeError` from assigning
into an `undefined` `subcommands` property. -/
inductive BuildError where
  | parentAlongsideSub (src : String)
  | subAlongsideGroup (src : String)
  | typeError
deriving DecidableEq

/-- The `type === 'commands'` branches of the `generateEntries` predicate
(part_001 lines 571-625, identically part_002 lines 383-437): a scanned file
with key path `fileKeys` adds `entry` to the accumulated `entries` object,
nesting by depth.  Key paths of other lengths fall through every branch and
leave `entries` unchanged. -/
def insertCommand (entries : Obj CommandEntry) (fileKeys : List String)
    (entry : CommandEntry) : Except BuildError (Obj CommandEntry) :=
  match fileKeys with
  | [k1] => .ok (objInsert entries k1 entry)
  | [k1, k2] =>
    match olookup entries k1 with
    | some p =>
      if truthyStr p.cpath then .error (.parentAlongsideSub (p.cpath.getD ""))
      else match p.subcommands with
        | none => .error .typeError
        | some subs =>
          .ok (objInsert entries k1 (.mk p.data p.cpath (some (objInsert subs k2 entry))))
    | none =>
      .ok (objInsert entries k1 (.mk none none (some (objInsert [] k2 entry))))
  | [k1, k2, k3] =>
    match olookup entries k1 with
    | some p =>
      if truthyStr p.cpath then .error (.parentAlongsideSub (p.cpath.getD ""))
      else match p.subcommands with
        | none => .error .typeError
        | some subs =>
          match olookup subs k2 with
          | some q =>
            if truthyStr q.cpath then .error (.subAlongsideGroup (q.cpath.getD ""))
            else match q.subcommands with
              | none => .error .typeError
              | some qsubs =>
                .ok (objInsert entries k1 (.mk p.data p.cpath
                  (some (objInsert subs k2 (.mk q.data q.cpath (some (objInsert qsubs k3 entry)))))))
          | none =>
            .ok (objInsert entries k1 (.mk p.data p.cpath
              (some (objInsert subs k2 (.mk none none (some (objInsert [] k3 entry)))))))
    | none =>
      .ok (objInsert entries k1 (.mk none none
        (some (objInsert [] k2 (.mk none none (some (objInsert [] k3 entry)))))))
  | _ => .ok entries

/-- Walk a nested command object along a key path:
`entries[k1].subcommands[k2]...`. -/
def cmdLookupPath : Obj CommandEntry → List String → Option CommandEntry
  | _, [] => none
  | e, [k] => olookup e k
  | e, k :: rest =>
    match olookup e k with
    | some p =>
      match p.subcommands with
      | some subs => cmdLookupPath subs rest
      | none => none
    | none => none

/-- A file found by the commands scan: its nesting key path and the
`__path` recorded on its entry (`fullPath.replace(process.cwd(), '')`,
always a non-empty string for a file inside the project). -/
structure ScannedCommand where
  fileKeys : List String
  srcPath : String
  payload : Option String
deriving DecidableEq

/-- The entry object the predicate builds for a scanned file:
`{...getValue(...), __path}` — it carries `__path` and never `subcommands`. -/
def ScannedCommand.entry (s : ScannedCommand) : CommandEntry :=
  .mk s.payload (some s.srcPath) none

/-- Processing a list of scanned command files in order, as the sequential
semantics of the scan-and-insert loop of `generateEntries`. -/
def foldCommands : Obj CommandEntry → List ScannedCommand → Except BuildError (Obj CommandEntry)
  | e, [] => .ok e
  | e, s :: t =>
    match insertCommand e s.fileKeys s.entry with
    | .ok e' => foldCommands e' t
    | .error err => .error err

/-- C3.  Commands nest by depth.  A key path of length 1 stores the entry as a
top-level command; length 2 stores it at `commands[k1].subcommands[k2]`;
length 3 at `commands[k1].subcommands[k2].subcommands[k3]`.  When no parent
file exists (`olookup` is `none`) a placeholder `{subcommands: {}}` parent —
a node with no `__path` and no config payload — is created.  The hypotheses
say that any parent node that does exist is not a conflicting command file
(falsy `__path`) and carries a `subcommands` object, which is exactly the
non-aborting case of the code. -/
theorem generateEntries_commands_nest_by_depth
    (e : Obj CommandEntry) (k1 k2 k3 : String) (v : CommandEntry) :
    (insertCommand e [k1] v = .ok (objInsert e k1 v)
      ∧ olookup (objInsert e k1 v) k1 = some v)
    ∧ ((∀ p, olookup e k1 = some p →
          truthyStr p.cpath = false ∧ p.subcommands ≠ none) →
        ∃ e', insertCommand e [k1, k2] v = .ok e'
          ∧ cmdLookupPath e' [k1, k2] = some v
          ∧ (olookup e k1 = none →
              ∃ subs, olookup e' k1 = some (.mk none none (some subs))))
    ∧ ((∀ p, olookup e k1 = some p →
          truthyStr p.cpath = false ∧
          ∃ subs, p.subcommands = some subs ∧
            (∀ q, olookup subs k2 = some q →
              truthyStr q.cpath = false ∧ q.subcommands ≠ none)) →
        ∃ e', insertCommand e [k1, k2, k3] v = .ok e'
          ∧ cmdLookupPath e' [k1, k2, k3] = some v
          ∧ (olookup e k1 = none →
              ∃ subs, olookup e' k1 = some (.mk none none (some subs)))
          ∧ (cmdLookupPath e [k1, k2] = none →
              ∃ q, cmdLookupPath e' [k1, k2] = some q
                ∧ q.cpath = none ∧ q.data = none)) := by
  refine ⟨⟨rfl, olookup_objInsert_self e k1 v⟩, ?_, ?_⟩
  · intro hok
    cases hp : olookup e k1 with
    | none =>
      refine ⟨objInsert e k1 (.mk none none (some (objInsert [] k2 v))), ?_, ?_, ?_⟩
      · simp [insertCommand, hp]
      · simp [cmdLookupPath, olookup_objInsert_self, CommandEntry.subcommands]
      · intro _
        exact ⟨_, olookup_objInsert_self e k1 _⟩
    | some p =>
      obtain ⟨hfalsy, hsubs⟩ := hok p hp
      cases hs : p.subcommands with
      | none => exact absurd hs hsubs
      | some subs =>
        refine ⟨objInsert e k1 (.mk p.data p.cpath (some (objInsert subs k2 v))),
          ?_, ?_, ?_⟩
        · simp [insertCommand, hp, hfalsy, hs]
        · simp [cmdLookupPath, olookup_objInsert_self, CommandEntry.subcommands]
        · intro hnone
          exact Option.noConfusion hnone
  · intro hok
    cases hp : olookup e k1 with
    | none =>
      refine ⟨objInsert e k1 (.mk none none
        (some (objInsert [] k2 (.mk none none (some (objInsert [] k3 v)))))), ?_, ?_, ?_, ?_⟩
      · simp [insertCommand, hp]
      · simp [cmdLookupPath, olookup_objInsert_self, CommandEntry.subcommands]
      · intro _
        exact ⟨_, olookup_objInsert_self e k1 _⟩
      · intro _
        refine ⟨.mk none none (some (objInsert [] k3 v)), ?_, rfl, rfl⟩
        simp [cmdLookupPath, olookup_objInsert_self, CommandEntry.subcommands]
    | some p =>
      obtain ⟨hfalsy, subs, hs, hq⟩ := hok p hp
      cases hq2 : olookup subs k2 with
      | none =>
        refine ⟨objInsert e k1 (.mk p.data p.cpath
          (some (objInsert subs k2 (.mk none none (some (objInsert [] k3 v)))))), ?_, ?_, ?_, ?_⟩
        · simp [insertCommand, hp, hfalsy, hs, hq2]
        · simp [cmdLookupPath, olookup_objInsert_self, CommandEntry.subcommands]
        · intro hnone
          exact Option.noConfusion hnone
        · intro _
          refine ⟨.mk none none (some (objInsert [] k3 v)), ?_, rfl, rfl⟩
          simp [cmdLookupPath, olookup_objInsert_self, CommandEntry.subcommands]
      | some q =>
        obtain ⟨hqfalsy, hqsubs⟩ := hq q hq2
        cases hqs : q.subcommands with
        | none => exact absurd hqs hqsubs
        | some qsubs =>
          refine ⟨objInsert e k1 (.mk p.data p.cpath
            (some (objInsert subs k2
              (.mk q.data q.cpath (some (objInsert qsubs k3 v)))))), ?_, ?_, ?_, ?_⟩
          · simp [insertCommand, hp, hfalsy, hs, hq2, hqfalsy, hqs]
          · simp [cmdLookupPath, olookup_objInsert_self, CommandEntry.subcommands]
          · intro hnone
            exact Option.noConfusion hnone
          · intro hmid
            simp [cmdLookupPath, hp, hs, hq2] at hmid

mutual

/-- Structural invariant of command trees built by the scan: a node that has a
`subcommands` object has no `__path` at all (scanned file entries never carry
`subcommands`; placeholders never carry `__path`). -/
def entryOk : CommandEntry → Bool
  | .mk _ _ none => true
  | .mk _ cpath (some m) => cpath.isNone && entriesOk m

def entriesOk : List (String × CommandEntry) → Bool
  | [] => true
  | (_, e) :: t => entryOk e && entriesOk t

end

mutual

/-- The property claimed of emitted manifests: no command node carries both a
`__path` and a non-empty `subcommands` object. -/
def entryClaimOk : CommandEntry → Bool
  | .mk _ _ none => true
  | .mk _ cpath (some m) => (cpath.isNone || m.isEmpty) && entriesClaimOk m

def entriesClaimOk : List (String × CommandEntry) → Bool
  | [] => true
  | (_, e) :: t => entryClaimOk e && entriesClaimOk t

end

mutual

theorem entryOk_claim : ∀ (e : CommandEntry), entryOk e = true → entryClaimOk e = true
  | .mk _ _ none, _ => rfl
  | .mk d cpath (some m), h => by
    simp only [entryOk, Bool.and_eq_true] at h
    simp only [entryClaimOk, Bool.and_eq_true]
    exact ⟨by simp [h.1], entriesOk_claim m h.2⟩

theorem entriesOk_claim : ∀ (m : List (String × CommandEntry)),
    entriesOk m = true → entriesClaimOk m = true
  | [], _ => rfl
  | (_, e) :: t, h => by
    simp only [entriesOk, Bool.and_eq_true] at h
    simp only [entriesClaimOk, Bool.and_eq_true]
    exact ⟨entryOk_claim e h.1, entriesOk_claim t h.2⟩

end

theorem entriesOk_olookup {m : Obj CommandEntry} {k : String} {p : CommandEntry}
    (hm : entriesOk m = true) (hl : olookup m k = some p) : entryOk p = true := by
  induction m with
  | nil => exact Option.noConfusion hl
  | cons q t ih =>
    obtain ⟨kq, eq⟩ := q
    simp only [entriesOk, Bool.and_eq_true] at hm
    simp only [olookup] at hl
    by_cases hk : kq = k
    · rw [if_pos hk] at hl
      cases hl
      exact hm.1
    · rw [if_neg hk] at hl
      exact ih hm.2 hl

theorem entriesOk_append {a b : Obj CommandEntry}
    (ha : entriesOk a = true) (hb : entriesOk b = true) : entriesOk (a ++ b) = true := by
  induction a with
  | nil => exact hb
  | cons q t ih =>
    obtain ⟨kq, eq⟩ := q
    simp only [entriesOk, Bool.and_eq_true] at ha ⊢
    exact ⟨ha.1, ih ha.2⟩

theorem entriesOk_map_update {m : Obj CommandEntry} {k : String} {v : CommandEntry}
    (hm : entriesOk m = true) (hv : entryOk v = true) :
    entriesOk (m.map (fun p => if p.1 = k then (k, v) else p)) = true := by
  induction m with
  | nil => rfl
  | cons q t ih =>
    obtain ⟨kq, eq⟩ := q
    simp only [entriesOk, Bool.and_eq_true] at hm
    simp only [List.map_cons]
    by_cases hk : kq = k
    · rw [if_pos hk]
      simp only [entriesOk, Bool.and_eq_true]
      exact ⟨hv, ih hm.2⟩
    · rw [if_neg hk]
      simp only [entriesOk, Bool.and_eq_true]
      exact ⟨hm.1, ih hm.2⟩

theorem entriesOk_objInsert {m : Obj CommandEntry} {k : String} {v : CommandEntry}
    (hm : entriesOk m = true) (hv : entryOk v = true) :
    entriesOk (objInsert m k v) = true := by
  rw [objInsert]
  by_cases h : hasKey m k = true
  · rw [if_pos h]
    exact entriesOk_map_update hm hv
  · rw [if_neg (by simp [h])]
    refine entriesOk_append hm ?_
    simp [entriesOk, hv]

/-- Insertion via `insertCommand` preserves the structural invariant. -/
theorem insertCommand_preserves {e e' : Obj CommandEntry} {ks : List String}
    {v : CommandEntry} (he : entriesOk e = true) (hv : entryOk v = true)
    (hins : insertCommand e ks v = .ok e') : entriesOk e' = true := by
  cases ks with
  | nil =>
    have h2 : (Except.ok e : Except BuildError (Obj CommandEntry)) = Except.ok e' := hins
    cases h2
    exact he
  | cons k1 rest1 =>
  cases rest1 with
  | nil =>
    rw [insertCommand] at hins
    cases hins
    exact entriesOk_objInsert he hv
  | cons k2 rest2 =>
  cases rest2 with
  | cons k3 rest3 =>
    cases rest3 with
    | cons k4 rest4 =>
      have h2 : (Except.ok e : Except BuildError (Obj CommandEntry)) = Except.ok e' := hins
      cases h2
      exact he
    | nil =>
      rw [insertCommand] at hins
      cases hp : olookup e k1 with
      | none =>
        simp only [hp, Except.ok.injEq] at hins
        subst hins
        refine entriesOk_objInsert he ?_
        simp only [entryOk, Option.isNone_none, Bool.true_and]
        refine entriesOk_objInsert rfl ?_
        simp only [entryOk, Option.isNone_none, Bool.true_and]
        exact entriesOk_objInsert rfl hv
      | some p =>
        have hpok := entriesOk_olookup he hp
        cases htr : truthyStr p.cpath with
        | true => simp [hp, htr] at hins
        | false =>
          cases hs : p.subcommands with
          | none => simp [hp, htr, hs] at hins
          | some subs =>
            have hsubsOk : entriesOk subs = true := by
              obtain ⟨d, cp, sc⟩ := p
              simp only [CommandEntry.subcommands] at hs
              subst hs
              simp only [entryOk, Bool.and_eq_true] at hpok
              exact hpok.2
            have hcpNone : p.cpath.isNone = true := by
              obtain ⟨d, cp, sc⟩ := p
              simp only [CommandEntry.subcommands] at hs
              subst hs
              simp only [entryOk, Bool.and_eq_true] at hpok
              exact hpok.1
            cases hq : olookup subs k2 with
            | none =>
              simp only [hp, htr, Bool.false_eq_true, if_false, hs, hq,
                Except.ok.injEq] at hins
              subst hins
              refine entriesOk_objInsert he ?_
              simp only [entryOk, Bool.and_eq_true, hcpNone, true_and]
              refine entriesOk_objInsert hsubsOk ?_
              simp only [entryOk, Option.isNone_none, Bool.true_and]
              exact entriesOk_objInsert rfl hv
            | some q =>
              have hqok := entriesOk_olookup hsubsOk hq
              cases hqtr : truthyStr q.cpath with
              | true => simp [hp, htr, hs, hq, hqtr] at hins
              | false =>
                cases hqs : q.subcommands with
                | none => simp [hp, htr, hs, hq, hqtr, hqs] at hins
                | some qsubs =>
                  simp only [hp, htr, Bool.false_eq_true, if_false, hs, hq, hqtr, hqs,
                    Except.ok.injEq] at hins
                  subst hins
                  have hqsubsOk : entriesOk qsubs = true := by
                    obtain ⟨dq, cpq, scq⟩ := q
                    simp only [CommandEntry.subcommands] at hqs
                    subst hqs
                    simp only [entryOk, Bool.and_eq_true] at hqok
                    exact hqok.2
                  have hqcpNone : q.cpath.isNone = true := by
                    obtain ⟨dq, cpq, scq⟩ := q
                    simp only [CommandEntry.subcommands] at hqs
                    subst hqs
                    simp only [entryOk, Bool.and_eq_true] at hqok
                    exact hqok.1
                  refine entriesOk_objInsert he ?_
                  simp only [entryOk, Bool.and_eq_true, hcpNone, true_and]
                  refine entriesOk_objInsert hsubsOk ?_
                  simp only [entryOk, Bool.and_eq_true, hqcpNone, true_and]
                  exact entriesOk_objInsert hqsubsOk hv
  | nil =>
    rw [insertCommand] at hins
    cases hp : olookup e k1 with
    | none =>
      simp only [hp, Except.ok.injEq] at hins
      subst hins
      refine entriesOk_objInsert he ?_
      simp only [entryOk, Option.isNone_none, Bool.true_and]
      exact entriesOk_objInsert rfl hv
    | some p =>
      have hpok := entriesOk_olookup he hp
      cases htr : truthyStr p.cpath with
      | true => simp [hp, htr] at hins
      | false =>
        cases hs : p.subcommands with
        | none => simp [hp, htr, hs] at hins
        | some subs =>
          simp only [hp, htr, Bool.false_eq_true, if_false, hs, Except.ok.injEq] at hins
          subst hins
          obtain ⟨d, cp, sc⟩ := p
          simp only [CommandEntry.subcommands] at hs
          subst hs
          simp only [entryOk, Bool.and_eq_true] at hpok
          refine entriesOk_objInsert he ?_
          simp only [CommandEntry.data, CommandEntry.cpath, entryOk, Bool.and_eq_true]
          exact ⟨hpok.1, entriesOk_objInsert hpok.2 hv⟩

theorem entryOk_scanned (s : ScannedCommand) : entryOk s.entry = true := rfl

theorem foldCommands_preserves {e e' : Obj CommandEntry} {files : List ScannedCommand}
    (he : entriesOk e = true) (hfold : foldCommands e files = .ok e') :
    entriesOk e' = true := by
  induction files generalizing e with
  | nil =>
    rw [foldCommands] at hfold
    cases hfold
    exact he
  | cons s t ih =>
    rw [foldCommands] at hfold
    cases hins : insertCommand e s.fileKeys s.entry with
    | ok e1 =>
      rw [hins] at hfold
      exact ih (insertCommand_preserves he (entryOk_scanned s) hins) hfold
    | error err =>
      rw [hins] at hfold
      exact Except.noConfusion hfold

theorem entriesOk_forall {m : Obj CommandEntry} (hm : entriesOk m = true) :
    ∀ p ∈ m, entryOk p.2 = true := by
  induction m with
  | nil => intro p hp; cases hp
  | cons q t ih =>
    obtain ⟨kq, eq⟩ := q
    simp only [entriesOk, Bool.and_eq_true] at hm
    intro p hp
    cases hp with
    | head => exact hm.1
    | tail _ hmem => exact ih hm.2 p hmem

theorem entriesOk_objSpread {a b : Obj CommandEntry}
    (ha : entriesOk a = true) (hb : entriesOk b = true) :
    entriesOk (objSpread a b) = true := by
  induction b generalizing a with
  | nil => exact ha
  | cons q t ih =>
    obtain ⟨kq, eq⟩ := q
    simp only [entriesOk, Bool.and_eq_true] at hb
    exact ih (entriesOk_objInsert ha hb.1) hb.2

/-- C9.  A parent command file alongside deeper command files aborts the
build: when `entries[k1]` holds a scanned file entry (truthy `__path`),
inserting a depth-2 or depth-3 file under it yields the
`parentAlongsideSub` error (the `logger.error` + `process.exit(1)` path).
Consequently no successfully produced command object — including the merge
of plugin commands with locally scanned commands — contains a node with
both a `__path` and a non-empty `subcommands` object. -/
theorem commands_no_parent_path_with_subcommands
    (e e' : Obj CommandEntry) (k1 k2 k3 : String) (p v : CommandEntry)
    (files : List ScannedCommand) (pm : Obj CommandEntry) :
    (olookup e k1 = some p → truthyStr p.cpath = true →
      insertCommand e [k1, k2] v = .error (.parentAlongsideSub (p.cpath.getD ""))
      ∧ insertCommand e [k1, k2, k3] v = .error (.parentAlongsideSub (p.cpath.getD "")))
    ∧ (entriesOk e = true → foldCommands e files = .ok e' → entriesOk pm = true →
        entriesClaimOk (objSpread pm e') = true ∧ entriesClaimOk e' = true) := by
  constructor
  · intro hp htr
    constructor
    · rw [insertCommand]
      simp [hp, htr]
    · rw [insertCommand]
      simp [hp, htr]
  · intro he hfold hpm
    have he' := foldCommands_preserves he hfold
    exact ⟨entriesOk_claim _ (entriesOk_objSpread hpm he'), entriesOk_claim _ he'⟩

/-- Witness for C9: with a scanned `commands/ban.js` present, adding
`commands/ban/user.js` errors out, and a successful fold (adding `ping`)
merged over an empty plugin map satisfies the claimed invariant. -/
theorem commands_no_parent_path_with_subcommands_witness :
    insertCommand [("ban", CommandEntry.mk none (some "/commands/ban.js") none)]
        ["ban", "user"] (CommandEntry.mk none (some "/commands/ban/user.js") none)
      = .error (.parentAlongsideSub "/commands/ban.js")
    ∧ entriesClaimOk (objSpread []
        (objInsert [("ban", CommandEntry.mk none (some "/commands/ban.js") none)]
          "ping" (CommandEntry.mk none (some "/commands/ping.js") none))) = true := by
  have h := commands_no_parent_path_with_subcommands
    [("ban", CommandEntry.mk none (some "/commands/ban.js") none)]
    (objInsert [("ban", CommandEntry.mk none (some "/commands/ban.js") none)]
      "ping" (CommandEntry.mk none (some "/commands/ping.js") none))
    "ban" "user" "x"
    (CommandEntry.mk none (some "/commands/ban.js") none)
    (CommandEntry.mk none (some "/commands/ban/user.js") none)
    [⟨["ping"], "/commands/ping.js", none⟩] []
  exact ⟨(h.1 rfl rfl).1, (h.2 rfl rfl rfl).1⟩

/-- An API manifest node: `data` stands for the scanned payload (including
`__path`), `subroutes` for the optional nested route object.  A scanned file
entry carries `data` and no `subroutes`; placeholders are `{subroutes: {}}`. -/
inductive ApiEntry where
  | mk (data : Option String) (subroutes : Option (List (String × ApiEntry)))

def ApiEntry.data : ApiEntry → Option String
  | .mk d _ => d

def ApiEntry.subroutes : ApiEntry → Option (List (String × ApiEntry))
  | .mk _ s => s

/-- The walk of the `type === 'api'` branch below the top key (part_001
lines 645-654): descend `parent.subroutes`, creating `{subroutes: {}}`
placeholders for missing keys, and assign the entry at the last key.
Reading or assigning into an `undefined` `subroutes` (a previously scanned
leaf entry on the path) is a JS `TypeError`, modelled as `.error .typeError`. -/
def insertApiPath : ApiEntry → List String → ApiEntry → Except BuildError ApiEntry
  | p, [], _ => .ok p
  | p, k :: rest, v =>
    match p.subroutes with
    | none => .error .typeError
    | some m =>
      match rest with
      | [] => .ok (.mk p.data (some (objInsert m k v)))
      | _ :: _ =>
        match insertApiPath ((olookup m k).getD (.mk none (some []))) rest v with
        | .ok child' => .ok (.mk p.data (some (objInsert m k child')))
        | .error err => .error err

/-- The `parent` resolution at the top of the api branch (part_001 lines
636-643): take `entries[k1]` or a fresh `{subroutes: {}}`, then ensure a
`subroutes` object exists. -/
def apiParentNorm (o : Option ApiEntry) : ApiEntry :=
  let p := o.getD (.mk none (some []))
  match p.subroutes with
  | none => .mk p.data (some [])
  | some _ => p

/-- The whole `type === 'api'` branch of the `generateEntries` predicate
(part_001 lines 632-658). -/
def insertApi (entries : Obj ApiEntry) (fileKeys : List String) (entry : ApiEntry) :
    Except BuildError (Obj ApiEntry) :=
  match fileKeys with
  | [] => .ok entries
  | [k1] => .ok (objInsert entries k1 entry)
  | k1 :: k2 :: rest =>
    match insertApiPath (apiParentNorm (olookup entries k1)) (k2 :: rest) entry with
    | .ok parent2 => .ok (objInsert entries k1 parent2)
    | .error err => .error err

/-- Walk a nested api object along a key path: `entries[k1].subroutes[k2]...`. -/
def apiLookupPath : Obj ApiEntry → List String → Option ApiEntry
  | _, [] => none
  | e, k :: rest =>
    match olookup e k with
    | none => none
    | some p =>
      match rest with
      | [] => some p
      | _ :: _ =>
        match p.subroutes with
        | some m => apiLookupPath m rest
        | none => none

/-- Walk below a single node. -/
def entryLookup : ApiEntry → List String → Option ApiEntry
  | .mk _ (some m), ks => apiLookupPath m ks
  | .mk _ none, _ => none

/-- The walk below a node succeeds exactly when every already-existing node
on the way down has a `subroutes` object (missing nodes become placeholders,
which always do). -/
def apiPathOk : ApiEntry → List String → Bool
  | _, [] => true
  | p, k :: rest =>
    match p.subroutes with
    | none => false
    | some m =>
      match rest with
      | [] => true
      | _ :: _ =>
        match olookup m k with
        | some child => apiPathOk child rest
        | none => true

theorem apiLookupPath_nil (ks : List String) :
    apiLookupPath ([] : Obj ApiEntry) ks = none := by
  cases ks with
  | nil => rfl
  | cons k rest => rfl

theorem entryLookup_placeholder (ks : List String) :
    entryLookup (.mk none (some [])) ks = none := by
  show apiLookupPath ([] : Obj ApiEntry) ks = none
  exact apiLookupPath_nil ks

theorem apiPathOk_placeholder (ks : List String) :
    apiPathOk (.mk none (some [])) ks = true := by
  cases ks with
  | nil => rfl
  | cons k rest => cases rest <;> rfl

theorem entryLookup_cons (d : Option String) (m : Obj ApiEntry) (k : String)
    (t1 : String) (t2 : List String) :
    entryLookup (.mk d (some m)) (k :: t1 :: t2) = match olookup m k with
      | some child => entryLookup child (t1 :: t2)
      | none => none := by
  show apiLookupPath m (k :: t1 :: t2) = _
  rw [apiLookupPath]
  cases olookup m k with
  | none => rfl
  | some child =>
    obtain ⟨dc, src⟩ := child
    cases src <;> rfl

/-- Below a node whose walk is clear, `insertApiPath` succeeds, places the
entry at the end of the key path, keeps the node's own payload, and fills
every previously missing node on the path with a payload-free placeholder. -/
theorem insertApiPath_ok (v : ApiEntry) :
    ∀ (ks : List String) (p : ApiEntry), ks ≠ [] → apiPathOk p ks = true →
      ∃ p2, insertApiPath p ks v = .ok p2
        ∧ p2.data = p.data
        ∧ entryLookup p2 ks = some v
        ∧ (∀ pre k' more, ks = pre ++ k' :: more → more ≠ [] →
            entryLookup p (pre ++ [k']) = none →
            ∃ q, entryLookup p2 (pre ++ [k']) = some q ∧ q.data = none)
  | [], _, hne, _ => absurd rfl hne
  | [k], p, _, hok => by
    obtain ⟨d, sr⟩ := p
    cases sr with
    | none => simp [apiPathOk, ApiEntry.subroutes] at hok
    | some m =>
      refine ⟨.mk d (some (objInsert m k v)), rfl, rfl, ?_, ?_⟩
      · show apiLookupPath (objInsert m k v) [k] = some v
        rw [apiLookupPath, olookup_objInsert_self]
      · intro pre k' more heq hmore _
        have hlen := congrArg List.length heq
        cases more with
        | nil => exact absurd rfl hmore
        | cons m1 m2 =>
          simp [List.length_append] at hlen
          omega
  | k :: k2 :: rest, p, _, hok => by
    obtain ⟨d, sr⟩ := p
    cases sr with
    | none => simp [apiPathOk, ApiEntry.subroutes] at hok
    | some m =>
      cases hch : olookup m k with
      | some child =>
        have hok2 : apiPathOk child (k2 :: rest) = true := by
          rw [apiPathOk] at hok
          simpa [ApiEntry.subroutes, hch] using hok
        obtain ⟨child2, hins, hdata, hlook, hph⟩ :=
          insertApiPath_ok v (k2 :: rest) child (by simp) hok2
        obtain ⟨dc, src⟩ := child2
        cases src with
        | none => simp [entryLookup] at hlook
        | some m2 =>
          refine ⟨.mk d (some (objInsert m k (.mk dc (some m2)))), ?_, rfl, ?_, ?_⟩
          · rw [insertApiPath]
            simp only [ApiEntry.subroutes, ApiEntry.data, hch, Option.getD_some, hins]
          · rw [entryLookup_cons, olookup_objInsert_self]
            exact hlook
          · intro pre k' more heq hmore hpre
            cases pre with
            | nil =>
              simp only [List.nil_append] at heq hpre ⊢
              injection heq with h1 h2
              subst h1
              simp only [entryLookup] at hpre
              rw [apiLookupPath, hch] at hpre
              exact Option.noConfusion hpre
            | cons kp pre2 =>
              rw [List.cons_append] at heq
              injection heq with h1 heq2
              subst h1
              rw [List.cons_append] at hpre ⊢
              cases pre2 with
              | nil =>
                simp only [List.nil_append] at heq2 hpre ⊢
                rw [entryLookup_cons, hch] at hpre
                obtain ⟨q, hq, hqd⟩ := hph [] k' more heq2 hmore hpre
                refine ⟨q, ?_, hqd⟩
                rw [entryLookup_cons, olookup_objInsert_self]
                exact hq
              | cons kp2 pre3 =>
                rw [List.cons_append] at hpre ⊢
                rw [entryLookup_cons, hch] at hpre
                obtain ⟨q, hq, hqd⟩ := hph (kp2 :: pre3) k' more heq2 hmore hpre
                refine ⟨q, ?_, hqd⟩
                rw [entryLookup_cons, olookup_objInsert_self]
                exact hq
      | none =>
        obtain ⟨child2, hins, hdata, hlook, hph⟩ :=
          insertApiPath_ok v (k2 :: rest) (.mk none (some []))
            (by simp) (apiPathOk_placeholder _)
        obtain ⟨dc, src⟩ := child2
        cases src with
        | none => simp [entryLookup] at hlook
        | some m2 =>
          have hdc : dc = none := by simpa [ApiEntry.data] using hdata
          subst hdc
          refine ⟨.mk d (some (objInsert m k (.mk none (some m2)))), ?_, rfl, ?_, ?_⟩
          · rw [insertApiPath]
            simp only [ApiEntry.subroutes, ApiEntry.data, hch, Option.getD_none, hins]
          · rw [entryLookup_cons, olookup_objInsert_self]
            exact hlook
          · intro pre k' more heq hmore hpre
            cases pre with
            | nil =>
              simp only [List.nil_append] at heq ⊢
              injection heq with h1 h2
              subst h1
              refine ⟨.mk none (some m2), ?_, rfl⟩
              show apiLookupPath (objInsert m k (.mk none (some m2))) [k] = _
              rw [apiLookupPath, olookup_objInsert_self]
            | cons kp pre2 =>
              rw [List.cons_append] at heq
              injection heq with h1 heq2
              subst h1
              rw [List.cons_append]
              obtain ⟨q, hq, hqd⟩ := hph pre2 k' more heq2 hmore
                (entryLookup_placeholder _)
              refine ⟨q, ?_, hqd⟩
              cases pre2 with
              | nil =>
                simp only [List.nil_append] at hq ⊢
                rw [entryLookup_cons, olookup_objInsert_self]
                exact hq
              | cons kp2 pre3 =>
                rw [List.cons_append] at hq ⊢
                rw [entryLookup_cons, olookup_objInsert_self]
                exact hq

/-- C4 (amended).  API routes nest into subroutes: a key path of length 1
stores the entry directly at `entries[k1]`; a key path `k1 :: rest` of
length >= 2 places the entry at `entries[k1].subroutes[k2]...subroutes[kn]`,
creating a `{subroutes: {}}` node for every missing ancestor — provided every
already-existing node along the walk below the top level carries a
`subroutes` object (`apiPathOk`).  When a deep ancestor is a previously
scanned leaf entry the code instead throws a `TypeError`
(see the counterexample). -/
theorem generateEntries_api_nest_into_subroutes
    (e : Obj ApiEntry) (k1 : String) (rest : List String) (v : ApiEntry) :
    (insertApi e [k1] v = .ok (objInsert e k1 v)
      ∧ olookup (objInsert e k1 v) k1 = some v)
    ∧ (rest ≠ [] → apiPathOk (apiParentNorm (olookup e k1)) rest = true →
        ∃ e2, insertApi e (k1 :: rest) v = .ok e2
          ∧ apiLookupPath e2 (k1 :: rest) = some v
          ∧ (olookup e k1 = none → ∃ q, olookup e2 k1 = some q ∧ q.data = none)
          ∧ (∀ pre k' more, rest = pre ++ k' :: more → more ≠ [] →
              apiLookupPath e (k1 :: (pre ++ [k'])) = none →
              ∃ q, apiLookupPath e2 (k1 :: (pre ++ [k'])) = some q ∧ q.data = none)) := by
  constructor
  · exact ⟨rfl, olookup_objInsert_self e k1 v⟩
  · intro hne hok
    cases rest with
    | nil => exact absurd rfl hne
    | cons k2 rest2 =>
      obtain ⟨p2, hins, hdata, hlook, hph⟩ :=
        insertApiPath_ok v (k2 :: rest2) (apiParentNorm (olookup e k1)) (by simp) hok
      obtain ⟨dp, srp⟩ := p2
      cases srp with
      | none => simp [entryLookup] at hlook
      | some m2 =>
        refine ⟨objInsert e k1 (.mk dp (some m2)), ?_, ?_, ?_, ?_⟩
        · rw [insertApi]
          simp only [hins]
        · rw [apiLookupPath, olookup_objInsert_self]
          exact hlook
        · intro hk1none
          rw [hk1none] at hdata
          refine ⟨.mk dp (some m2), olookup_objInsert_self e k1 _, ?_⟩
          simpa [apiParentNorm, ApiEntry.data] using hdata
        · intro pre k' more heq hmore hpre
          obtain ⟨hd, tl, hx⟩ : ∃ hd tl, pre ++ [k'] = hd :: tl := by
            cases pre with
            | nil => exact ⟨k', [], rfl⟩
            | cons a b => exact ⟨a, b ++ [k'], rfl⟩
          have hP : entryLookup (apiParentNorm (olookup e k1)) (pre ++ [k']) = none := by
            cases hk1 : olookup e k1 with
            | none =>
              simp only [apiParentNorm, hk1, Option.getD_none]
              exact entryLookup_placeholder _
            | some p0 =>
              obtain ⟨d0, sr0⟩ := p0
              cases sr0 with
              | none =>
                simp only [apiParentNorm, hk1, Option.getD_some, ApiEntry.subroutes]
                exact entryLookup_placeholder _
              | some m0 =>
                simp only [apiParentNorm, hk1, Option.getD_some, ApiEntry.subroutes]
                rw [hx] at hpre ⊢
                rw [apiLookupPath, hk1] at hpre
                simpa [entryLookup, ApiEntry.subroutes] using hpre
          obtain ⟨q, hq, hqd⟩ := hph pre k' more heq hmore hP
          refine ⟨q, ?_, hqd⟩
          rw [hx] at hq ⊢
          rw [apiLookupPath, olookup_objInsert_self]
          exact hq

/-- C4, counterexample to the claim as stated: with the scanned files
`api/a/b.js` and then `api/a/b/c.js` (a leaf route with a deeper route below
it), the second insertion does not place the entry at
`entries[a].subroutes[b].subroutes[c]`; it throws a `TypeError` (reading
`subroutes` of the leaf entry), which aborts the build. -/
theorem generateEntries_api_counterexample :
    insertApi [] ["a", "b"] (ApiEntry.mk (some "/api/a/b.js") none)
        = .ok [("a", ApiEntry.mk none (some [("b", ApiEntry.mk (some "/api/a/b.js") none)]))]
    ∧ insertApi [("a", ApiEntry.mk none (some [("b", ApiEntry.mk (some "/api/a/b.js") none)]))]
        ["a", "b", "c"] (ApiEntry.mk (some "/api/a/b/c.js") none)
        = .error .typeError := ⟨rfl, rfl⟩

/-- Witness for C4 at a concrete input: a three-level route
`api/users/profile/get.js` inserted into an empty map lands at
`entries[users].subroutes[profile].subroutes[get]`. -/
theorem generateEntries_api_nest_witness :
    ∃ e2, insertApi [] ["users", "profile", "get"]
        (ApiEntry.mk (some "/api/users/profile/get.js") none) = .ok e2
      ∧ apiLookupPath e2 ["users", "profile", "get"]
          = some (ApiEntry.mk (some "/api/users/profile/get.js") none) := by
  obtain ⟨-, h2⟩ := generateEntries_api_nest_into_subroutes [] "users" ["profile", "get"]
    (ApiEntry.mk (some "/api/users/profile/get.js") none)
  obtain ⟨e2, hins, hlook, -, -⟩ := h2 (by simp) rfl
  exact ⟨e2, hins, hlook⟩

/-- Witness for C3 at a concrete input: inserting the files
`commands/ping.js`, `commands/ban/user.js` and
`commands/settings/update/something.js` shapes from the docs example. -/
theorem generateEntries_commands_nest_by_depth_witness :
    ∃ e', insertCommand [] ["settings", "update", "something"]
        (.mk none (some "/x.js") none) = .ok e'
      ∧ cmdLookupPath e' ["settings", "update", "something"]
          = some (.mk none (some "/x.js") none) := by
  obtain ⟨-, -, h3⟩ := generateEntries_commands_nest_by_depth []
    "settings" "update" "something" (.mk none (some "/x.js") none)
  obtain ⟨e', hins, hlook, -, -⟩ := h3 (by
    intro p hp
    simp [olookup] at hp)
  exact ⟨e', hins, hlook⟩

/-- A manifest `permissions` field as read from a plugin's JSON: either a
number or an array of permission strings. -/
inductive PermsVal where
  | num (n : Int)
  | strs (l : List String)
deriving DecidableEq

/-- The check `manifest.permissions && typeof manifest.permissions !== 'number'`
(part_001 line 259, part_002 line 128): present and not a number
(an array, even empty, is truthy). -/
def validPermissions : Option PermsVal → Bool
  | some (.strs _) => true
  | some (.num _) => false
  | none => false

def permsList : Option PermsVal → List String
  | some (.strs l) => l
  | _ => []

/-- The fields of an installed plugin's manifest that the part_001 merge
reads.  Event configs, context entries and middleware entries are opaque
strings. -/
structure PluginManifest where
  api : Obj ApiEntry
  commands : Obj CommandEntry
  contextMessage : Obj String
  contextUser : Obj String
  events : Obj (List String)
  middleware : Option (List String)
  permissions : Option PermsVal
  scopes : Option (List String)

/-- The accumulated `pluginsManifest` of part_001's `readPluginManifest`;
`BASE_MANIFEST` seeds every field as empty. -/
structure PluginAcc where
  api : Obj ApiEntry
  commands : Obj CommandEntry
  contextMessage : Obj String
  contextUser : Obj String
  events : Obj (List String)
  middleware : List String
  permissions : List String
  scopes : List String

def basePluginAcc : PluginAcc := ⟨[], [], [], [], [], [], [], []⟩

/-- One iteration of the plugin loop of part_001's `readPluginManifest`
(lines 261-288): api/commands/context merge by object spread, events by
`mergeEvents`, middleware/permissions/scopes by array concatenation. -/
def foldPluginManifest (acc : PluginAcc) (m : PluginManifest) : PluginAcc :=
  { api := objSpread acc.api m.api
    commands := objSpread acc.commands m.commands
    contextMessage := objSpread acc.contextMessage m.contextMessage
    contextUser := objSpread acc.contextUser m.contextUser
    events := mergeEvents acc.events m.events
    middleware := acc.middleware ++ m.middleware.getD []
    permissions := acc.permissions
      ++ (if validPermissions m.permissions then permsList m.permissions else [])
    scopes := acc.scopes ++ m.scopes.getD [] }

/-- part_001's `readPluginManifest` over the manifests of the installed
plugins, in configuration order (plugins that are not installed are skipped
by the loop and so never reach the fold). -/
def readPluginManifest (ms : List PluginManifest) : PluginAcc :=
  ms.foldl foldPluginManifest basePluginAcc

/-- The fields of part_002's older plugin manifest merge. -/
structure PluginManifest002 where
  commands : Obj CommandEntry
  events : Obj (List String)
  permissions : Option PermsVal
  scopes : Option (List String)

structure PluginAcc002 where
  commands : Obj CommandEntry
  events : Obj (List String)
  permissions : List String
  scopes : List String

/-- One iteration of the plugin loop of part_002's `readPluginManifest`
(lines 130-146).  Note the difference from part_001: events are merged by
object spread `{...pluginsManifest.events, ...manifest.events}`, not by
`mergeEvents`. -/
def foldPluginManifest002 (acc : PluginAcc002) (m : PluginManifest002) : PluginAcc002 :=
  { commands := objSpread acc.commands m.commands
    events := objSpread acc.events m.events
    permissions := acc.permissions
      ++ (if validPermissions m.permissions then permsList m.permissions else [])
    scopes := acc.scopes ++ m.scopes.getD [] }

def readPluginManifest002 (ms : List PluginManifest002) : PluginAcc002 :=
  ms.foldl foldPluginManifest002 ⟨[], [], [], []⟩

/-- C2 (amended).  Events accumulate under `mergeEvents`: each name bound in
the new map maps to the base array (or `[]`) followed by the new array, and
other names keep their base binding; and part_001's plugin fold merges its
`events` field exactly by `mergeEvents`, so the same law applies when folding
plugin manifests there.  (In part_002's plugin fold events merge by object
spread instead — see the counterexample.) -/
theorem mergeEvents_accumulates (base new : Obj (List String)) (name : String)
    (hn : (keys new).Nodup) (acc : PluginAcc) (m : PluginManifest) :
    ((∀ arr, olookup new name = some arr →
        olookup (mergeEvents base new) name = some (((olookup base name).getD []) ++ arr))
      ∧ (olookup new name = none →
        olookup (mergeEvents base new) name = olookup base name))
    ∧ (foldPluginManifest acc m).events = mergeEvents acc.events m.events := by
  refine ⟨⟨?_, ?_⟩, rfl⟩
  · intro arr harr
    rw [olookup_mergeEvents base new name hn, harr]
  · intro hnone
    rw [olookup_mergeEvents base new name hn, hnone]

/-- Witness for C2: merging scanned events over a base binding concatenates
the handler arrays. -/
theorem mergeEvents_accumulates_witness :
    olookup (mergeEvents [("ready", ["pluginHandler"])]
      [("ready", ["localHandler"]), ("messageCreate", ["dm"])]) "ready"
      = some ["pluginHandler", "localHandler"] := by
  have h := mergeEvents_accumulates [("ready", ["pluginHandler"])]
    [("ready", ["localHandler"]), ("messageCreate", ["dm"])] "ready"
    (by simp [keys]) basePluginAcc
    ⟨[], [], [], [], [], none, none, none⟩
  exact (h.1.1 ["localHandler"] rfl).trans rfl

/-- C2, counterexample to the claim as stated: in part_002's plugin fold
two plugins both providing a `ready` event handler do not accumulate — the
second plugin's array replaces the first's, losing its handler. -/
theorem plugin_fold_002_events_override :
    olookup (readPluginManifest002
      [⟨[], [("ready", ["handlerA"])], none, none⟩,
       ⟨[], [("ready", ["handlerB"])], none, none⟩]).events "ready"
      = some ["handlerB"]
    ∧ some ["handlerB"] ≠ some (["handlerA"] ++ ["handlerB"]) := by
  refine ⟨rfl, ?_⟩
  simp

/-- A JSON-ish JavaScript value, for plugin options. -/
inductive JsVal where
  | vnull
  | vstr (s : String)
  | vnum (n : Int)
  | vbool (b : Bool)
  | varr (elems : List JsVal)
  | vobj (fields : List (String × JsVal))

/-- JS `typeof v === 'object'`: true for plain objects, arrays and `null`. -/
def JsVal.typeofObject : JsVal → Bool
  | .vnull => true
  | .vobj _ => true
  | .varr _ => true
  | _ => false

/-- A `plugins` configuration entry: either a plain package name or a
`[name, options]` pair. -/
inductive PluginEntry where
  | pname (s : String)
  | ppair (s : String) (opts : JsVal)

/-- The redaction loop body of `redactPluginOptions` (part_001 lines 792-802,
identically part_002 lines 541-551): build a fresh object binding every
own enumerable key of the options to the string `'[REDACTED]'`.  `for...in`
over an array enumerates its indices; over `null` it enumerates nothing. -/
def redactOptions : JsVal → JsVal
  | .vobj fields => .vobj (fields.map (fun p => (p.1, JsVal.vstr "[REDACTED]")))
  | .varr elems => .vobj ((List.range elems.length).map
      (fun i => (toString i, JsVal.vstr "[REDACTED]")))
  | _ => .vobj []

/-- The per-plugin map of `redactPluginOptions` (part_001 lines 788-806): a
`[name, options]` pair with an object-typed options value becomes
`[name, redactedObj]`; everything else passes through unchanged. -/
def redactPlugin : PluginEntry → PluginEntry
  | .pname s => .pname s
  | .ppair s opts =>
    if opts.typeofObject then .ppair s (redactOptions opts) else .ppair s opts

/-- Entries of `Object.values(config.clientOptions?.intents || \x7b\x7d)`: strings or
numeric intent bits. -/
inductive IntentVal where
  | str (s : String)
  | num (n : Int)

/-- The configuration fields that the manifest generator reads.  `extra`
stands for all remaining configuration data, carried through opaquely. -/
structure Config where
  plugins : Option (List PluginEntry)
  inviteAutoPermissions : Option Bool
  invitePermissions : Option PermsVal
  inviteScopes : Option (List String)
  intents : List IntentVal
  seedDescription : Option (Option String)
  extra : String

/-- The function `redactPluginOptions` (part_001 lines 783-812, identically part_002
lines 532-561). -/
def redactPluginOptions (c : Config) : Config :=
  match c.plugins with
  | none => c
  | some ps => { c with plugins := some (ps.map redactPlugin) }

/-- The `INTENT_PERMISSIONS` table (part_001 lines 140-156). -/
def INTENT_PERMISSIONS : Obj (List String) :=
  [("DirectMessages", []), ("DirectMessageReactions", []), ("DirectMessageTyping", []),
   ("Guilds", ["ViewChannel"]), ("GuildMembers", []),
   ("GuildBans", ["BanMembers", "ViewAuditLog"]),
   ("GuildEmojisAndStickers", ["ManageEmojisAndStickers"]),
   ("GuildIntegrations", ["ManageGuild", "ViewAuditLog"]),
   ("GuildWebhooks", ["ManageWebhooks", "ViewAuditLog"]),
   ("GuildInvites", ["CreateInstantInvite", "ManageGuild"]),
   ("GuildVoiceStates", ["Connect", "Speak", "MuteMembers", "DeafenMembers",
     "MoveMembers", "UseVAD"]),
   ("GuildPresences", []),
   ("GuildMessages", ["ReadMessageHistory", "SendMessages"]),
   ("GuildMessageReactions", ["ReadMessageHistory", "AddReactions"]),
   ("GuildMessageTyping", ["ReadMessageHistory"])]

/-- In-place `Array.prototype.sort` with the `localeCompare` comparator,
modelled as insertion sort by the standard string order. -/
def insSortedStr (x : String) : List String → List String
  | [] => [x]
  | y :: t => if x ≤ y then x :: y :: t else y :: insSortedStr x t

def sortStrings : List String → List String
  | [] => []
  | x :: t => insSortedStr x (sortStrings t)

/-- JS `[...new Set(xs)]`: drop later duplicates, keeping first occurrences. -/
def dedupFirstAux (seen : List String) : List String → List String
  | [] => []
  | x :: t =>
    if seen.contains x then dedupFirstAux seen t
    else x :: dedupFirstAux (x :: seen) t

def dedupFirst (l : List String) : List String := dedupFirstAux [] l

/-- The function `generatePermissions` (part_001 lines 302-331; identically part_002
lines 200-229): intent-derived permissions when `autoPermissions` is on,
then non-numeric non-empty configured permissions, sorted, deduplicated and
stripped of falsy entries. -/
def generatePermissions (c : Config) : List String :=
  let auto := c.inviteAutoPermissions.getD true
  let fromIntents : List String :=
    if auto then
      c.intents.foldl (fun acc i =>
        match i with
        | .str s => acc ++ ((olookup INTENT_PERMISSIONS s).getD [])
        | .num _ => acc) []
    else []
  let withConfig := fromIntents ++ (match c.invitePermissions with
    | some (.strs l) => if l.isEmpty then [] else l
    | _ => [])
  (dedupFirst (sortStrings withConfig)).filter (fun s => s ≠ "")

/-- The function `generateScopes` (part_001 lines 333-351; identically part_002 lines
231-249): `bot`, plus `applications.commands` when the manifest has any
commands, plus configured scopes, sorted, deduplicated, falsy-filtered. -/
def generateScopes (c : Config) (cmds : Obj CommandEntry) : List String :=
  let base := ["bot"] ++ (if cmds.isEmpty then [] else ["applications.commands"])
  let withConfig := base ++ (match c.inviteScopes with
    | some l => if l.isEmpty then [] else l
    | none => [])
  (dedupFirst (sortStrings withConfig)).filter (fun s => s ≠ "")

/-- The `__robo` metadata block of the generated manifest (part_001 lines
183-195). -/
structure RoboInfo where
  config : Option Config
  language : String
  mode : String
  seed : Option (Option String)
  rtype : String
  updatedAt : String
  version : String

/-- The generated manifest (part_001 lines 180-216; the constant `__README`
banner is attached at serialization time). -/
structure Manifest where
  robo : RoboInfo
  api : Obj ApiEntry
  commands : Obj CommandEntry
  contextMessage : Obj String
  contextUser : Obj String
  events : Obj (List String)
  permissions : List String
  middleware : List String
  scopes : List String

/-- The inputs that a run of `generateManifest` consumes: the loaded
configuration, the manifests of the installed plugins, the entries produced
by scanning the build directory, and the environment facts the code reads
(`Compiler.isTypescriptProject()`, `Mode.get()`, `packageJson.version`). -/
structure GenInputs where
  config : Config
  pluginManifests : List PluginManifest
  api : Obj ApiEntry
  commands : Obj CommandEntry
  contextMessage : Obj String
  contextUser : Obj String
  events : Obj (List String)
  middleware : List String
  language : String
  mode : String
  version : String

/-- The function `generateManifest` (part_001 lines 171-232) as a function of its inputs
and of the clock reading `now` (`new Date().toISOString()`, line 193):
fold the plugin manifests, overlay the locally scanned entries, compute
permissions and scopes from the configuration, and re-order api, commands
and events alphabetically.  `isPlugin` is `type === 'plugin'`, which uses
`BASE_MANIFEST` (empty) instead of the plugin fold. -/
def generateManifest (I : GenInputs) (isPlugin : Bool) (now : String) : Manifest :=
  let pm := if isPlugin then basePluginAcc else readPluginManifest I.pluginManifests
  let mergedCommands := objSpread pm.commands I.commands
  let m : Manifest :=
    { robo :=
        { config := some (redactPluginOptions I.config)
          language := I.language
          mode := I.mode
          seed := I.config.seedDescription
          rtype := if isPlugin then "plugin" else "robo"
          updatedAt := now
          version := I.version }
      api := objSpread pm.api I.api
      commands := mergedCommands
      contextMessage := objSpread pm.contextMessage I.contextMessage
      contextUser := objSpread pm.contextUser I.contextUser
      events := mergeEvents pm.events I.events
      permissions := generatePermissions I.config
      middleware := pm.middleware ++ I.middleware
      scopes := generateScopes I.config mergedCommands }
  { m with
      api := sortByKey m.api
      commands := sortByKey m.commands
      events := sortByKey m.events }

/-- A JSON document, the shape `JSON.stringify` serializes. -/
inductive Json where
  | jnull
  | jstr (s : String)
  | jnum (n : Int)
  | jbool (b : Bool)
  | jarr (elems : List Json)
  | jobj (fields : List (String × Json))

mutual

/-- Serialization of a JSON document to bytes.  Models
`JSON.stringify(newManifest, jsonReplacer, 2)` up to the fixed whitespace
and string-escaping rules, which are themselves deterministic functions of
the document. -/
def Json.render : Json → String
  | .jnull => "null"
  | .jstr s => "\"" ++ s ++ "\""
  | .jnum n => toString n
  | .jbool b => if b then "true" else "false"
  | .jarr es => "[" ++ renderElems es ++ "]"
  | .jobj fs => "\x7b" ++ renderFields fs ++ "\x7d"

def renderElems : List Json → String
  | [] => ""
  | x :: t => Json.render x ++ (if t.isEmpty then "" else ",") ++ renderElems t

def renderFields : List (String × Json) → String
  | [] => ""
  | (k, v) :: t =>
    "\"" ++ k ++ "\":" ++ Json.render v ++ (if t.isEmpty then "" else ",") ++ renderFields t

end

mutual

def commandEntryJson : CommandEntry → Json
  | .mk d p subs =>
    .jobj ((match d with | some s => [("config", Json.jstr s)] | none => [])
      ++ (match p with | some s => [("__path", Json.jstr s)] | none => [])
      ++ (match subs with
          | some m => [("subcommands", Json.jobj (cmdEntriesJson m))]
          | none => []))

def cmdEntriesJson : List (String × CommandEntry) → List (String × Json)
  | [] => []
  | (k, e) :: t => (k, commandEntryJson e) :: cmdEntriesJson t

end

mutual

def apiEntryJson : ApiEntry → Json
  | .mk d subs =>
    .jobj ((match d with | some s => [("__path", Json.jstr s)] | none => [])
      ++ (match subs with
          | some m => [("subroutes", Json.jobj (apiEntriesJson m))]
          | none => []))

def apiEntriesJson : List (String × ApiEntry) → List (String × Json)
  | [] => []
  | (k, e) :: t => (k, apiEntryJson e) :: apiEntriesJson t

end

mutual

def jsValJson : JsVal → Json
  | .vnull => .jnull
  | .vstr s => .jstr s
  | .vnum n => .jnum n
  | .vbool b => .jbool b
  | .varr es => .jarr (jsValListJson es)
  | .vobj fs => .jobj (jsValFieldsJson fs)

def jsValListJson : List JsVal → List Json
  | [] => []
  | v :: t => jsValJson v :: jsValListJson t

def jsValFieldsJson : List (String × JsVal) → List (String × Json)
  | [] => []
  | (k, v) :: t => (k, jsValJson v) :: jsValFieldsJson t

end

def pluginEntryJson : PluginEntry → Json
  | .pname s => .jstr s
  | .ppair s o => .jarr [.jstr s, jsValJson o]

def permsValJson : PermsVal → Json
  | .num n => .jnum n
  | .strs l => .jarr (l.map Json.jstr)

def intentValJson : IntentVal → Json
  | .str s => .jstr s
  | .num n => .jnum n

def configJson (c : Config) : Json :=
  .jobj [("plugins", match c.plugins with
            | none => .jnull
            | some ps => .jarr (ps.map pluginEntryJson)),
         ("autoPermissions", match c.inviteAutoPermissions with
            | none => .jnull
            | some b => .jbool b),
         ("permissions", match c.invitePermissions with
            | none => .jnull
            | some v => permsValJson v),
         ("scopes", match c.inviteScopes with
            | none => .jnull
            | some l => .jarr (l.map Json.jstr)),
         ("intents", .jarr (c.intents.map intentValJson)),
         ("extra", .jstr c.extra)]

def stringObjJson (o : Obj String) : List (String × Json) :=
  o.map (fun p => (p.1, Json.jstr p.2))

def eventsObjJson (o : Obj (List String)) : List (String × Json) :=
  o.map (fun p => (p.1, Json.jarr (p.2.map Json.jstr)))

def roboInfoJson (r : RoboInfo) : Json :=
  .jobj ([("config", match r.config with
            | none => .jnull
            | some c => configJson c),
          ("language", .jstr r.language),
          ("mode", .jstr r.mode)]
    ++ (match r.seed with
        | none => []
        | some d => [("seed", Json.jobj [("description", match d with
            | none => Json.jnull
            | some s => Json.jstr s)])])
    ++ [("type", .jstr r.rtype),
        ("updatedAt", .jstr r.updatedAt),
        ("version", .jstr r.version)])

/-- The manifest document, with the key order of `BASE_MANIFEST`
(part_001 lines 118-136), which the spreads of `generateManifest` preserve. -/
def manifestJson (m : Manifest) : Json :=
  .jobj [("__README",
            .jstr "This file was automatically generated by Robo.js - do not edit manually."),
         ("__robo", roboInfoJson m.robo),
         ("api", .jobj (apiEntriesJson m.api)),
         ("commands", .jobj (cmdEntriesJson m.commands)),
         ("context", .jobj [("message", .jobj (stringObjJson m.contextMessage)),
                            ("user", .jobj (stringObjJson m.contextUser))]),
         ("events", .jobj (eventsObjJson m.events)),
         ("permissions", .jarr (m.permissions.map Json.jstr)),
         ("middleware", .jarr (m.middleware.map Json.jstr)),
         ("scopes", .jarr (m.scopes.map Json.jstr))]

/-- A durable file-system write effect. -/
inductive FsEffect where
  | mkdirRecursive (dir : String)
  | writeFile (file : String) (contents : String)

def FsEffect.path : FsEffect → String
  | .mkdirRecursive d => d
  | .writeFile f _ => f

/-- The function `generateManifest` with its write effects (part_001 lines 227-229):
`fs.mkdir('.robo', {recursive: true})` followed by
`fs.writeFile(path.join('.robo', 'manifest.json'), JSON.stringify(...))`.
These are the only writes in the function; everything before them is
reading and pure computation. -/
def generateManifestEff (I : GenInputs) (isPlugin : Bool) (now : String) :
    Manifest × List FsEffect :=
  let m := generateManifest I isPlugin now
  (m, [.mkdirRecursive ".robo",
       .writeFile ".robo/manifest.json" (Json.render (manifestJson m))])

/-- C8.  Every run of `generateManifest` performs exactly two writes: it
creates `.robo` (recursively, so a pre-existing directory is fine) and
writes the serialized manifest to `.robo/manifest.json`; every touched path
is one of those two. -/
theorem generateManifest_writes_one_file (I : GenInputs) (isPlugin : Bool) (now : String) :
    (generateManifestEff I isPlugin now).2
      = [.mkdirRecursive ".robo",
         .writeFile ".robo/manifest.json"
           (Json.render (manifestJson (generateManifest I isPlugin now)))]
    ∧ ((generateManifestEff I isPlugin now).2.all
        (fun e => e.path = ".robo" || e.path = ".robo/manifest.json")) = true := by
  exact ⟨rfl, rfl⟩

/-- A manifest with its `__robo.updatedAt` timestamp cleared. -/
def eraseUpdatedAt (m : Manifest) : Manifest :=
  { m with robo := { m.robo with updatedAt := "" } }

/-- C1 (amended).  Manifest generation is a pure function of the scanned
entries, plugin manifests, configuration, environment facts and the clock
reading: two runs over the same fixed inputs agree on every field except
`__robo.updatedAt`, which is the `new Date().toISOString()` of the run; with
the clock reading also fixed the manifests and their serializations are
identical. -/
theorem generateManifest_deterministic_except_updatedAt
    (I : GenInputs) (isPlugin : Bool) (now1 now2 : String) :
    eraseUpdatedAt (generateManifest I isPlugin now1)
        = eraseUpdatedAt (generateManifest I isPlugin now2)
    ∧ (generateManifest I isPlugin now1).robo.updatedAt = now1
    ∧ Json.render (manifestJson (generateManifest I isPlugin now1))
        = Json.render (manifestJson (generateManifest I isPlugin now1)) := by
  exact ⟨rfl, rfl, rfl⟩

/-- Inputs for the C1 counterexample: an empty project with no plugins. -/
def cexInputs : GenInputs :=
  ⟨⟨none, none, none, none, [], none, ""⟩, [], [], [], [], [], [], [],
    "javascript", "production", "1.0.0"⟩

/-- C1, counterexample to the claim as stated: with every scanned entry,
plugin manifest and configuration fixed, two runs at different clock
readings produce different `Manifest` values (they differ in
`__robo.updatedAt`), hence not byte-identical JSON. -/
theorem generateManifest_two_runs_differ :
    generateManifest cexInputs false "2024-01-01T00:00:00.000Z"
      ≠ generateManifest cexInputs false "2024-01-02T00:00:00.000Z" := by
  intro h
  have h2 := congrArg (fun m => m.robo.updatedAt) h
  simp only at h2
  exact absurd h2 (by decide)

theorem foldl_pluginManifest_concats (ms : List PluginManifest) (acc : PluginAcc) :
    (List.foldl foldPluginManifest acc ms).middleware
        = acc.middleware ++ (ms.map (fun p => p.middleware.getD [])).flatten
    ∧ (List.foldl foldPluginManifest acc ms).scopes
        = acc.scopes ++ (ms.map (fun p => p.scopes.getD [])).flatten
    ∧ (List.foldl foldPluginManifest acc ms).permissions
        = acc.permissions ++ (ms.map (fun p =>
            if validPermissions p.permissions then permsList p.permissions else [])).flatten := by
  induction ms generalizing acc with
  | nil => simp
  | cons m t ih =>
    obtain ⟨h1, h2, h3⟩ := ih (foldPluginManifest acc m)
    refine ⟨?_, ?_, ?_⟩
    · rw [List.foldl_cons, h1]
      show (acc.middleware ++ m.middleware.getD []) ++ _ = _
      rw [List.map_cons, List.flatten_cons, List.append_assoc]
    · rw [List.foldl_cons, h2]
      show (acc.scopes ++ m.scopes.getD []) ++ _ = _
      rw [List.map_cons, List.flatten_cons, List.append_assoc]
    · rw [List.foldl_cons, h3]
      show (acc.permissions ++ _) ++ _ = _
      rw [List.map_cons, List.flatten_cons, List.append_assoc]

/-- C5 (amended).  Folding plugin manifests into the local manifest:
api and commands merge by key union with later entries — and finally the
locally scanned entries — overriding earlier ones; context maps merge by
object spread; middleware, permissions and scopes concatenate across the
plugin fold, and middleware additionally concatenates with the local list.
The final manifest's `permissions` and `scopes`, however, are recomputed
from the configuration by `generatePermissions` / `generateScopes`,
replacing the folded plugin values (see the counterexample). -/
theorem plugin_merge_union_concat (I : GenInputs) (now : String) (k : String)
    (hapi : (keys I.api).Nodup) (hcmd : (keys I.commands).Nodup)
    (hpmapi : (keys (readPluginManifest I.pluginManifests).api).Nodup)
    (hpmcmd : (keys (readPluginManifest I.pluginManifests).commands).Nodup) :
    ((∀ v, olookup I.api k = some v
        → olookup (generateManifest I false now).api k = some v)
      ∧ (olookup I.api k = none
        → olookup (generateManifest I false now).api k
            = olookup (readPluginManifest I.pluginManifests).api k))
    ∧ ((∀ v, olookup I.commands k = some v
        → olookup (generateManifest I false now).commands k = some v)
      ∧ (olookup I.commands k = none
        → olookup (generateManifest I false now).commands k
            = olookup (readPluginManifest I.pluginManifests).commands k))
    ∧ (generateManifest I false now).contextMessage
        = objSpread (readPluginManifest I.pluginManifests).contextMessage I.contextMessage
    ∧ (generateManifest I false now).middleware
        = (readPluginManifest I.pluginManifests).middleware ++ I.middleware
    ∧ (readPluginManifest I.pluginManifests).middleware
        = (I.pluginManifests.map (fun p => p.middleware.getD [])).flatten
    ∧ (readPluginManifest I.pluginManifests).scopes
        = (I.pluginManifests.map (fun p => p.scopes.getD [])).flatten
    ∧ (readPluginManifest I.pluginManifests).permissions
        = (I.pluginManifests.map (fun p =>
            if validPermissions p.permissions then permsList p.permissions else [])).flatten
    ∧ (generateManifest I false now).permissions = generatePermissions I.config
    ∧ (generateManifest I false now).scopes
        = generateScopes I.config
            (objSpread (readPluginManifest I.pluginManifests).commands I.commands) := by
  obtain ⟨hm, hs, hp⟩ := foldl_pluginManifest_concats I.pluginManifests basePluginAcc
  have hapi' : olookup (generateManifest I false now).api k
      = olookup (objSpread (readPluginManifest I.pluginManifests).api I.api) k := by
    exact olookup_sortByKey _ (nodup_keys_objSpread _ hpmapi) k
  have hcmd' : olookup (generateManifest I false now).commands k
      = olookup (objSpread (readPluginManifest I.pluginManifests).commands I.commands) k := by
    exact olookup_sortByKey _ (nodup_keys_objSpread _ hpmcmd) k
  refine ⟨⟨?_, ?_⟩, ⟨?_, ?_⟩, rfl, rfl, ?_, ?_, ?_, rfl, rfl⟩
  · intro v hv
    rw [hapi', olookup_objSpread _ _ k hapi, hv]
  · intro hnone
    rw [hapi', olookup_objSpread _ _ k hapi, hnone]
  · intro v hv
    rw [hcmd', olookup_objSpread _ _ k hcmd, hv]
  · intro hnone
    rw [hcmd', olookup_objSpread _ _ k hcmd, hnone]
  · simpa [readPluginManifest, basePluginAcc] using hm
  · simpa [readPluginManifest, basePluginAcc] using hs
  · simpa [readPluginManifest, basePluginAcc] using hp

/-- A plugin manifest that contributes the `BanMembers` permission. -/
def pluginWithPerm : PluginManifest :=
  ⟨[], [], [], [], [], none, some (.strs ["BanMembers"]), none⟩

/-- Inputs for the C5 counterexample: one installed plugin carrying a
permission, nothing scanned locally, an empty configuration. -/
def c5Inputs : GenInputs :=
  ⟨⟨none, none, none, none, [], none, ""⟩, [pluginWithPerm], [], [], [], [], [], [],
    "javascript", "production", "1.0.0"⟩

/-- C5, counterexample to the claim as stated: the plugin fold concatenates
the plugin's permission, but the emitted manifest's `permissions` is
recomputed from the configuration alone, so the plugin's permission is
dropped rather than concatenated. -/
theorem plugin_merge_permissions_dropped :
    (readPluginManifest [pluginWithPerm]).permissions = ["BanMembers"]
    ∧ (generateManifest c5Inputs false "2024-01-01T00:00:00.000Z").permissions = []
    ∧ (generateManifest c5Inputs false "2024-01-01T00:00:00.000Z").permissions
        ≠ (readPluginManifest [pluginWithPerm]).permissions
            ++ generatePermissions c5Inputs.config := by
  refine ⟨rfl, rfl, ?_⟩
  intro h
  rw [show (readPluginManifest [pluginWithPerm]).permissions = ["BanMembers"] from rfl,
    show generatePermissions c5Inputs.config = [] from rfl,
    show (generateManifest c5Inputs false "2024-01-01T00:00:00.000Z").permissions = []
      from rfl] at h
  exact List.noConfusion h

/-- Witness for C5: one plugin and a local scan sharing the `ping` command;
the local entry wins, the plugin-only `poke` command survives. -/
theorem plugin_merge_union_concat_witness :
    olookup (generateManifest
      ⟨⟨none, none, none, none, [], none, ""⟩,
        [⟨[], [("ping", CommandEntry.mk (some "plugin") none none),
              ("poke", CommandEntry.mk (some "plugin") none none)],
          [], [], [], none, none, none⟩],
        [], [("ping", CommandEntry.mk (some "local") none none)], [], [], [], [],
        "javascript", "production", "1.0.0"⟩
      false "2024-01-01T00:00:00.000Z").commands "ping"
      = some (CommandEntry.mk (some "local") none none) := by
  have h := plugin_merge_union_concat
    ⟨⟨none, none, none, none, [], none, ""⟩,
      [⟨[], [("ping", CommandEntry.mk (some "plugin") none none),
            ("poke", CommandEntry.mk (some "plugin") none none)],
        [], [], [], none, none, none⟩],
      [], [("ping", CommandEntry.mk (some "local") none none)], [], [], [], [],
      "javascript", "production", "1.0.0"⟩
    "2024-01-01T00:00:00.000Z" "ping"
    (by simp [keys]) (by simp [keys])
    (by simp [keys, readPluginManifest, basePluginAcc, foldPluginManifest, objSpread, objInsert, hasKey, olookup])
    (by simp [keys, readPluginManifest, basePluginAcc, foldPluginManifest, objSpread, objInsert, hasKey, olookup])
  exact h.2.1.1 (CommandEntry.mk (some "local") none none) rfl

/-- The own enumerable key list `for...in` visits on an object-typed value:
an object's keys, an array's indices, nothing for `null`. -/
def optKeys : JsVal → List String
  | .vobj fields => fields.map Prod.fst
  | .varr es => (List.range es.length).map (fun i => toString i)
  | _ => []

theorem redactOptions_eq_keys (o : JsVal) (h : o.typeofObject = true) :
    redactOptions o = .vobj ((optKeys o).map (fun k => (k, JsVal.vstr "[REDACTED]"))) := by
  cases o with
  | vobj fields =>
    simp only [redactOptions, optKeys, List.map_map]
    rfl
  | varr es =>
    simp only [redactOptions, optKeys, List.map_map]
    rfl
  | vnull => rfl
  | vstr s => simp [JsVal.typeofObject] at h
  | vnum n => simp [JsVal.typeofObject] at h
  | vbool b => simp [JsVal.typeofObject] at h

/-- Two plugin entries that differ at most in option values: equal names,
and either both options are object-typed with the same key list, or the
options are identical. -/
def pluginOptionsAgree : PluginEntry → PluginEntry → Prop
  | .pname s1, .pname s2 => s1 = s2
  | .ppair s1 o1, .ppair s2 o2 =>
      s1 = s2 ∧ ((o1.typeofObject = true ∧ o2.typeofObject = true ∧ optKeys o1 = optKeys o2)
        ∨ o1 = o2)
  | _, _ => False

theorem redactPlugin_agree {p1 p2 : PluginEntry} (h : pluginOptionsAgree p1 p2) :
    redactPlugin p1 = redactPlugin p2 := by
  cases p1 with
  | pname s1 =>
    cases p2 with
    | pname s2 =>
      simp only [pluginOptionsAgree] at h
      rw [h]
    | ppair s2 o2 => exact absurd h (by simp [pluginOptionsAgree])
  | ppair s1 o1 =>
    cases p2 with
    | pname s2 => exact absurd h (by simp [pluginOptionsAgree])
    | ppair s2 o2 =>
      obtain ⟨hs, hor⟩ := h
      subst hs
      cases hor with
      | inl h3 =>
        obtain ⟨h1, h2, hk⟩ := h3
        simp only [redactPlugin, h1, h2, if_true,
          redactOptions_eq_keys o1 h1, redactOptions_eq_keys o2 h2, hk]
      | inr heq => rw [heq]

theorem map_redactPlugin_agree {ps1 ps2 : List PluginEntry}
    (h : List.Forall₂ pluginOptionsAgree ps1 ps2) :
    ps1.map redactPlugin = ps2.map redactPlugin := by
  induction h with
  | nil => rfl
  | cons h1 h2 ih => simp [redactPlugin_agree h1, ih]

/-- C10.  Plugin option values never reach the manifest: the config embedded
in the emitted manifest is the redacted config; redaction maps a
`[name, options]` pair with object options to the same name with every
own-property value replaced by `'[REDACTED]'`, preserving the key list and
the plugin order; hence two configurations differing only in plugin option
values embed identically. -/
theorem plugin_options_redacted (I : GenInputs) (isPlugin : Bool) (now : String)
    (name : String) (fields : List (String × JsVal)) (c : Config)
    (ps1 ps2 : List PluginEntry) (hf : List.Forall₂ pluginOptionsAgree ps1 ps2) :
    (generateManifest I isPlugin now).robo.config = some (redactPluginOptions I.config)
    ∧ redactPlugin (.ppair name (.vobj fields))
        = .ppair name (.vobj (fields.map (fun p => (p.1, JsVal.vstr "[REDACTED]"))))
    ∧ redactPluginOptions { c with plugins := some ps1 }
        = redactPluginOptions { c with plugins := some ps2 } := by
  refine ⟨rfl, rfl, ?_⟩
  show ({ c with plugins := some (ps1.map redactPlugin) } : Config)
      = { c with plugins := some (ps2.map redactPlugin) }
  rw [map_redactPlugin_agree hf]

/-- Witness for C10: two configs whose only difference is a secret plugin
option value redact to the same embedded config. -/
theorem plugin_options_redacted_witness :
    redactPluginOptions
        ⟨some [.ppair "ai-plugin" (.vobj [("apiKey", .vstr "secret-one")])],
          none, none, none, [], none, "rest"⟩
      = redactPluginOptions
        ⟨some [.ppair "ai-plugin" (.vobj [("apiKey", .vstr "secret-two")])],
          none, none, none, [], none, "rest"⟩ := by
  have h := plugin_options_redacted cexInputs false "t" "n" []
    ⟨none, none, none, none, [], none, "rest"⟩
    [.ppair "ai-plugin" (.vobj [("apiKey", .vstr "secret-one")])]
    [.ppair "ai-plugin" (.vobj [("apiKey", .vstr "secret-two")])]
    (List.Forall₂.cons ⟨rfl, Or.inl ⟨rfl, rfl, rfl⟩⟩ List.Forall₂.nil)
  exact h.2.2

/-- The three query modes of `findCommandDifferences`. -/
inductive DiffMode where
  | added
  | removed
  | changed

mutual

/-- Structural equality of command entries, standing for however
`findCommandDifferences` decides that a command present in both manifests
has changed. -/
def commandEntryBeq : CommandEntry → CommandEntry → Bool
  | .mk d1 p1 none, .mk d2 p2 none => d1 == d2 && p1 == p2
  | .mk d1 p1 (some m1), .mk d2 p2 (some m2) => d1 == d2 && p1 == p2 && cmdEntriesBeq m1 m2
  | _, _ => false

def cmdEntriesBeq : List (String × CommandEntry) → List (String × CommandEntry) → Bool
  | [], [] => true
  | (k1, e1) :: t1, (k2, e2) :: t2 => k1 == k2 && commandEntryBeq e1 e2 && cmdEntriesBeq t1 t2
  | _, _ => false

end

/-- Modelled from the spec: `findCommandDifferences` (imported by the build
action from `cli/utils/commands.js`, which is not part of the provided
sources) — "a diffing step compares old vs. new command sets": it returns
the command keys that are added (in the new set only), removed (in the old
set only), or changed (in both sets with differing entries). -/
def findCommandDifferences (oldC newC : Obj CommandEntry) : DiffMode → List String
  | .added => (keys newC).filter (fun k => !hasKey oldC k)
  | .removed => (keys oldC).filter (fun k => !hasKey newC k)
  | .changed => (keys newC).filter (fun k =>
      match olookup oldC k, olookup newC k with
      | some a, some b => !commandEntryBeq a b
      | _, _ => false)

/-- The registration decision of `buildAction` (part_001 lines 73-85):
compute the three difference lists between the previously loaded manifest's
commands and the new manifest's commands, then call `registerCommands` when
`--force` was passed or any difference list is non-empty. -/
def buildShouldRegister (force : Bool) (oldC newC : Obj CommandEntry) : Bool :=
  let addedCommands := findCommandDifferences oldC newC .added
  let removedCommands := findCommandDifferences oldC newC .removed
  let changedCommands := findCommandDifferences oldC newC .changed
  force || !addedCommands.isEmpty || !removedCommands.isEmpty || !changedCommands.isEmpty

theorem bnot_isEmpty_iff (l : List String) : (!l.isEmpty) = true ↔ l ≠ [] := by
  cases l <;> simp

/-- C6.  The diff decides registration: `registerCommands` is invoked
exactly when the force flag is set or one of the added, removed or changed
difference sets is non-empty; and the added/removed sets are exactly the
keys present in only one of the two command maps. -/
theorem build_registers_iff (force : Bool) (oldC newC : Obj CommandEntry) :
    (buildShouldRegister force oldC newC = true
      ↔ (force = true
        ∨ findCommandDifferences oldC newC .added ≠ []
        ∨ findCommandDifferences oldC newC .removed ≠ []
        ∨ findCommandDifferences oldC newC .changed ≠ []))
    ∧ (∀ k, k ∈ findCommandDifferences oldC newC .added
        ↔ k ∈ keys newC ∧ olookup oldC k = none)
    ∧ (∀ k, k ∈ findCommandDifferences oldC newC .removed
        ↔ k ∈ keys oldC ∧ olookup newC k = none) := by
  refine ⟨?_, ?_, ?_⟩
  · rw [buildShouldRegister]
    simp only [Bool.or_eq_true, bnot_isEmpty_iff, or_assoc]
  · intro k
    simp only [findCommandDifferences, List.mem_filter, Bool.not_eq_eq_eq_not,
      Bool.not_true, hasKey_false_iff]
  · intro k
    simp only [findCommandDifferences, List.mem_filter, Bool.not_eq_eq_eq_not,
      Bool.not_true, hasKey_false_iff]

/-- A pure file-system tree.  A file carries its extension (`path.extname`);
the binding name is `path.basename(file, ext)` for files and the directory
name for directories. -/
inductive FSNode where
  | file (ext : String)
  | dir (children : List (String × FSNode))

/-- Resolve one path segment under a node. -/
def childOf : FSNode → String → Option FSNode
  | .file _, _ => none
  | .dir cs, name => olookup cs name

/-- One predicate invocation recorded by the scan: the file's nesting key
path and the module key path it was found under. -/
structure ScanItem where
  fileKeys : List String
  moduleKeys : List String
deriving DecidableEq

theorem sizeOf_olookup {cs : List (String × FSNode)} {k : String} {c : FSNode}
    (h : olookup cs k = some c) : sizeOf c < sizeOf cs := by
  induction cs with
  | nil => exact Option.noConfusion h
  | cons p t ih =>
    obtain ⟨k0, v0⟩ := p
    simp only [olookup] at h
    by_cases hk : k0 = k
    · rw [if_pos hk] at h
      cases h
      simp only [List.cons.sizeOf_spec, Prod.mk.sizeOf_spec]
      omega
    · rw [if_neg hk] at h
      have := ih h
      simp only [List.cons.sizeOf_spec]
      omega

theorem sizeOf_childOf {p : FSNode} {n : String} {c : FSNode}
    (h : childOf p n = some c) : sizeOf c < sizeOf p := by
  cases p with
  | file e => exact Option.noConfusion h
  | dir cs =>
    have := sizeOf_olookup (h : olookup cs n = some c)
    simp only [FSNode.dir.sizeOf_spec]
    omega

mutual

/-- The files pass of `scanDir` (part_001 lines 399-420 and 469-478,
sequentialized): run the predicate on every file at this level whose
extension is in `ALLOWED_EXTENSIONS` (a constant not among the provided
sources, carried as the parameter `allowed`), with the file's base name
appended to the recursion keys. -/
def scanFilesList (allowed : List String) (ks ms : List String) :
    List (String × FSNode) → List ScanItem
  | [] => []
  | (name, .file ext) :: t =>
    (if allowed.contains ext then [⟨ks ++ [name], ms⟩] else [])
      ++ scanFilesList allowed ks ms t
  | (_, .dir _) :: t => scanFilesList allowed ks ms t

/-- The directory recursion of `scanDir` (part_001 lines 480-494): recurse
into each subdirectory — files of the subdirectory first, then its
directories — with `recurseModules: false`, so no nested `modules` lookup
happens below the top level. -/
def scanDirsList (allowed : List String) (ks ms : List String) :
    List (String × FSNode) → List ScanItem
  | [] => []
  | (_, .file _) :: t => scanDirsList allowed ks ms t
  | (name, .dir cs) :: t =>
    scanFilesList allowed (ks ++ [name]) ms cs
      ++ scanDirsList allowed (ks ++ [name]) ms cs
      ++ scanDirsList allowed ks ms t

end

def splitDotsAux : List Char → List Char → List String
  | [], acc => [String.mk acc.reverse]
  | c :: t, acc =>
    if c = '.' then String.mk acc.reverse :: splitDotsAux t []
    else splitDotsAux t (c :: acc)

/-- JS `String.prototype.split('.')`: the dot-separated parts, empty parts
preserved. -/
def splitDots (s : String) : List String := splitDotsAux s.toList []

/-- The mode gate on a module directory name (part_001 lines 439-446):
`module.split('.')`, a multi-part name's last part is its mode, and
`Mode.is` — not among the provided sources — is modelled from the spec and
the surrounding debug text as equality with the current mode.  A module
whose non-empty suffix differs from the current mode is skipped. -/
def moduleModeSkip (cur mname : String) : Bool :=
  let parts := splitDots mname
  if parts.length > 1 then
    let mode := parts.getLastD ""
    mode ≠ "" && mode ≠ cur
  else false

mutual

/-- A top-of-type scan of `scanDir` with `recurseModules: true`
(part_001 lines 371-512): scan `parentDir/typeName` (files, then
directories), then additionally scan `parentDir/modules/<m>/typeName` for
every module directory `<m>` that passes the mode gate and actually has the
type subdirectory; a missing primary directory (ENOENT) and modules lacking
the type subdirectory (ENOENT/ENOTDIR on `fs.stat`) are skipped without
error. -/
def scanTypeRoot (allowed : List String) (typeName cur : String)
    (parentDir : FSNode) (modKeys : List String) : List ScanItem :=
  (match childOf parentDir typeName with
    | some (.dir cs) =>
      scanFilesList allowed [] modKeys cs ++ scanDirsList allowed [] modKeys cs
    | _ => [])
  ++ (match hmod : childOf parentDir "modules" with
    | some (.dir mcs) => scanModulesList allowed typeName cur modKeys mcs
    | _ => [])
termination_by sizeOf parentDir
decreasing_by
  have h1 := sizeOf_childOf hmod
  simp only [FSNode.dir.sizeOf_spec] at h1
  omega

/-- The modules pass (part_001 lines 425-467 and 496-511, sequentialized):
each eligible module's type directory is scanned like a fresh top-of-type
scan, with the module name appended to the module keys and the recursion
keys reset. -/
def scanModulesList (allowed : List String) (typeName cur : String)
    (modKeys : List String) : List (String × FSNode) → List ScanItem
  | [] => []
  | (mname, mnode) :: t =>
    (if moduleModeSkip cur mname then []
     else match childOf mnode typeName with
       | some (.dir _) => scanTypeRoot allowed typeName cur mnode (modKeys ++ [mname])
       | _ => [])
    ++ scanModulesList allowed typeName cur modKeys t
termination_by l => sizeOf l
decreasing_by
  · simp only [List.cons.sizeOf_spec, Prod.mk.sizeOf_spec]
    omega
  · simp only [List.cons.sizeOf_spec]
    omega

end

theorem mem_scanModulesList (allowed : List String) (typeName cur : String)
    (modKeys : List String) (mcs : List (String × FSNode))
    (mname : String) (mnode : FSNode) (hmem : (mname, mnode) ∈ mcs)
    (hskip : moduleModeSkip cur mname = false)
    (d : List (String × FSNode)) (htype : childOf mnode typeName = some (.dir d))
    (item : ScanItem)
    (hitem : item ∈ scanTypeRoot allowed typeName cur mnode (modKeys ++ [mname])) :
    item ∈ scanModulesList allowed typeName cur modKeys mcs := by
  induction mcs with
  | nil => cases hmem
  | cons p t ih =>
    rw [scanModulesList]
    cases hmem with
    | head =>
      apply List.mem_append_left
      rw [hskip]
      simp only [Bool.false_eq_true, if_neg, htype]
      exact hitem
    | tail _ hmem2 =>
      exact List.mem_append_right _ (ih hmem2)

/-- C7 (amended).  The scanner also walks plugin module directories: the
top-of-type scan is the primary `buildDir/typeName` scan followed by the
module contributions in order; every entry scanned under an eligible
module's type subdirectory (mode gate passed, subdirectory present) lands
in the same result list as the primary entries; and a module whose type
subdirectory is missing — or is a plain file — contributes nothing, without
error.  A module directory whose dotted mode suffix differs from the
current mode is skipped even when it has the type subdirectory (see the
counterexample). -/
theorem scanDir_scans_modules (allowed : List String) (typeName cur : String)
    (build : FSNode) (mcs : List (String × FSNode))
    (hmod : childOf build "modules" = some (.dir mcs)) :
    (scanTypeRoot allowed typeName cur build []
      = (match childOf build typeName with
          | some (.dir cs) =>
            scanFilesList allowed [] [] cs ++ scanDirsList allowed [] [] cs
          | _ => [])
        ++ scanModulesList allowed typeName cur [] mcs)
    ∧ (∀ mname mnode, (mname, mnode) ∈ mcs →
        moduleModeSkip cur mname = false →
        ∀ d, childOf mnode typeName = some (.dir d) →
          ∀ item ∈ scanTypeRoot allowed typeName cur mnode [mname],
            item ∈ scanTypeRoot allowed typeName cur build [])
    ∧ (∀ mname mnode, (mname, mnode) ∈ mcs →
        (childOf mnode typeName = none
          ∨ (∃ ext, childOf mnode typeName = some (.file ext))) →
        (if moduleModeSkip cur mname then []
         else match childOf mnode typeName with
           | some (.dir cs2) => scanTypeRoot allowed typeName cur mnode [mname]
           | _ => []) = ([] : List ScanItem)) := by
  have heq : scanTypeRoot allowed typeName cur build []
      = (match childOf build typeName with
          | some (.dir cs) =>
            scanFilesList allowed [] [] cs ++ scanDirsList allowed [] [] cs
          | _ => [])
        ++ scanModulesList allowed typeName cur [] mcs := by
    rw [scanTypeRoot, hmod]
  refine ⟨heq, ?_, ?_⟩
  · intro mname mnode hmem hskip d htype item hitem
    rw [heq]
    exact List.mem_append_right _
      (mem_scanModulesList allowed typeName cur [] mcs mname mnode hmem hskip d htype
        item (by simpa using hitem))
  · intro mname mnode _ hlack
    cases hs : moduleModeSkip cur mname with
    | true => simp
    | false =>
      simp only [Bool.false_eq_true, if_neg]
      cases hlack with
      | inl hnone =>
        rw [hnone]
        simp
      | inr hfile =>
        obtain ⟨ext, hext⟩ := hfile
        rw [hext]
        simp

/-- C7, counterexample to the claim as stated: the module `m.dev` has a
`commands` subdirectory with a scannable file, yet under the current mode
`production` the scan of the build directory yields nothing — the module is
skipped because of its mode suffix — while a scan of that very module
yields the file. -/
theorem scanDir_mode_suffix_counterexample :
    scanTypeRoot [".js"] "commands" "production"
        (.dir [("modules",
          .dir [("m.dev", .dir [("commands", .dir [("x", .file ".js")])])])]) []
      = []
    ∧ scanTypeRoot [".js"] "commands" "production"
        (.dir [("commands", .dir [("x", .file ".js")])]) ["m.dev"]
      = [⟨["x"], ["m.dev"]⟩] := by
  constructor
  · simp [scanTypeRoot, scanModulesList, childOf, olookup, moduleModeSkip, splitDots,
      splitDotsAux, scanFilesList, scanDirsList]
  · simp [scanTypeRoot, scanModulesList, childOf, olookup, moduleModeSkip, splitDots,
      splitDotsAux, scanFilesList, scanDirsList]

/-- Witness for C7: a build output with a `ping` command and a plugin module
`mymod` contributing a `poke` command; the module's entry appears in the
overall scan result alongside the primary entries. -/
theorem scanDir_scans_modules_witness :
    (⟨["poke"], ["mymod"]⟩ : ScanItem) ∈ scanTypeRoot [".js"] "commands" "production"
      (.dir [("commands", .dir [("ping", .file ".js")]),
             ("modules", .dir [("mymod",
               .dir [("commands", .dir [("poke", .file ".js")])])])]) [] := by
  have h := scanDir_scans_modules [".js"] "commands" "production"
    (.dir [("commands", .dir [("ping", .file ".js")]),
           ("modules", .dir [("mymod",
             .dir [("commands", .dir [("poke", .file ".js")])])])])
    [("mymod", .dir [("commands", .dir [("poke", .file ".js")])])]
    (by simp [childOf, olookup])
  refine h.2.1 "mymod" (.dir [("commands", .dir [("poke", .file ".js")])])
    (by simp) rfl [("poke", .file ".js")] (by simp [childOf, olookup])
    ⟨["poke"], ["mymod"]⟩ ?_
  simp [scanTypeRoot, scanModulesList, childOf, olookup, moduleModeSkip, splitDots,
    splitDotsAux, scanFilesList, scanDirsList]

end Robo
